import Mathlib

/-!
# Verification of the Facebook photo downloader core

Shallow embedding of the download orchestration engine (background service
worker) and of the naming utilities (`src/lib/utils.js`) of the
OpenSourceFacebookDownloader extension, together with proofs and refutations
of the specified properties.

Strings are modelled as Lean `String`/`List Char` (one entry per Unicode
scalar value).  The ambient clock (`Date.now()`) is passed explicitly as a
`Nat` parameter wherever the source reads it.  JavaScript `$`-substitution in
`String.replace` replacement strings is not modelled; no replacement value in
this program contains such a pattern.
-/

set_option maxRecDepth 8000

namespace FbDl

/-! ## Character classes used by `sanitizeFilename` -/

/-- The expanded set of problematic filename characters removed by
`sanitizeFilename`'s first `replace`:
`[<>:"/\\|?*\x00-\x1F\x7F~#%&{}$!@\x60+=]` (given by code point). -/
def isBadFileChar (c : Char) : Bool :=
  let n := c.toNat
  n ≤ 0x1F || n == 0x7F ||
  n == 60 || n == 62 || n == 58 || n == 34 || n == 47 || n == 92 ||
  n == 124 || n == 63 || n == 42 || n == 126 || n == 35 || n == 37 ||
  n == 38 || n == 123 || n == 125 || n == 36 || n == 33 || n == 64 ||
  n == 96 || n == 43 || n == 61

/-- JavaScript `\s` (also the set trimmed by `String.prototype.trim`):
tab through carriage return, space, NBSP, Ogham space mark, the Unicode
space separators, line/paragraph separators, narrow NBSP, medium
mathematical space, ideographic space and the BOM. -/
def isJsSpace (c : Char) : Bool :=
  let n := c.toNat
  (0x9 ≤ n && n ≤ 0xD) || n == 0x20 || n == 0xA0 || n == 0x1680 ||
  (0x2000 ≤ n && n ≤ 0x200A) || n == 0x2028 || n == 0x2029 ||
  n == 0x202F || n == 0x205F || n == 0x3000 || n == 0xFEFF

def isDot (c : Char) : Bool := c == '.'

def isUnd (c : Char) : Bool := c == '_'

def isDash (c : Char) : Bool := c == '-'

/-- Characters treated as separators by `applyTokenToFilename` (`[-_]`). -/
def isSep (c : Char) : Bool := c == '-' || c == '_'

/-! ## Generic run rewriting (the `replace(/xx+/g, r)` idioms) -/

/-- `squashRuns2 p r l` replaces every maximal run of two or more
`p`-characters by the single character `r` and keeps isolated
`p`-characters; this is `replace(/pp+/g, r)`.  (`r` itself must satisfy `p`,
as it does at every use site.) -/
def squashRuns2 (p : Char → Bool) (r : Char) (l : List Char) : List Char :=
  l.foldr
    (fun c acc =>
      if p c then
        match acc with
        | [] => [c]
        | d :: ds => if p d then r :: ds else c :: d :: ds
      else c :: acc) []

/-- `replRuns1 p r l` replaces every maximal nonempty run of `p`-characters
by the single character `r`; this is `replace(/p+/g, r)`. -/
def replRuns1 (p : Char → Bool) (r : Char) : List Char → List Char
  | [] => []
  | [a] => if p a then [r] else [a]
  | a :: b :: rest =>
    if p a && p b then replRuns1 p r (b :: rest)
    else if p a then r :: replRuns1 p r (b :: rest)
    else a :: replRuns1 p r (b :: rest)

/-! ## `sanitizeFilename` (src/lib/utils.js lines 6-36) -/

/-- Replacement of the trailing dot run of `m` by `'_'`
(the `\.+$` half of `replace(/^\.+|\.+$/g, '_')`). -/
def replTrailDots (m : List Char) : List Char :=
  let rev := m.reverse
  if (rev.takeWhile isDot).isEmpty then m
  else (rev.dropWhile isDot).reverse ++ ['_']

/-- `replace(/^\.+|\.+$/g, '_')`: the leading run of dots and the trailing
run of dots are each replaced by a single `'_'` (a string consisting
entirely of dots is consumed whole by the leading alternative). -/
def replEdgeDots (l : List Char) : List Char :=
  let lead := l.takeWhile isDot
  let rest := l.dropWhile isDot
  if lead.isEmpty then replTrailDots l
  else if rest.isEmpty then ['_']
  else '_' :: replTrailDots rest

/-- The five chained `replace` calls of `sanitizeFilename`, before the
length cap. -/
def presan (l : List Char) : List Char :=
  let s1 := l.map (fun c => if isBadFileChar c then '_' else c)
  let s2 := squashRuns2 isDot '.' s1
  let s3 := replEdgeDots s2
  let s4 := replRuns1 isJsSpace '_' s3
  squashRuns2 isUnd '_' s4

/-- The extension as matched by `/\.[^.]+$/`: from the last dot to the end,
provided at least one non-dot character follows that dot. -/
def extOf (l : List Char) : List Char :=
  let rev := l.reverse
  let afterRev := rev.takeWhile (fun c => !isDot c)
  if afterRev.length == rev.length then []
  else if afterRev.isEmpty then []
  else '.' :: afterRev.reverse

/-- The length cap: names longer than 180 characters are truncated while
preserving the extension (`substring(0, maxLength - extension.length)`
clamps at 0, exactly as JavaScript `substring` does on a negative bound). -/
def truncate180 (l : List Char) : List Char :=
  if l.length ≤ 180 then l
  else
    let ext := extOf l
    let nameOnly := l.take (l.length - ext.length)
    nameOnly.take (180 - ext.length) ++ ext

/-- Decimal digits of a natural number, as JavaScript stringifies an
integral `Date.now()` value.  Structural recursion on a fuel argument (any
fuel ≥ the digit count gives the same value, and the fuel-exhausted base
case is only ever reached for `n = 0`, where it is also correct). -/
def natCharsGo : Nat → Nat → List Char
  | 0, n => [Char.ofNat (48 + n % 10)]
  | fuel + 1, n =>
    if n < 10 then [Char.ofNat (48 + n)]
    else natCharsGo fuel (n / 10) ++ [Char.ofNat (48 + n % 10)]

def natChars (n : Nat) : List Char := natCharsGo n n

def natStr (n : Nat) : String := ⟨natChars n⟩

/-- The part of the name before the first dot: `sanitized.split('.')[0]`. -/
def baseOf (l : List Char) : List Char := l.takeWhile (fun c => !isDot c)

/-- The case-insensitive Windows reserved device-name test
`/^(CON|PRN|AUX|NUL|COM[1-9]|LPT[1-9])$/i`. -/
def isReservedBase (b : List Char) : Bool :=
  let u := b.map Char.toUpper
  u == "CON".data || u == "PRN".data || u == "AUX".data || u == "NUL".data ||
  (match u with
   | [a, b2, c, d] =>
     ((a == 'C' && b2 == 'O' && c == 'M') || (a == 'L' && b2 == 'P' && c == 'T')) &&
     (49 ≤ d.toNat && d.toNat ≤ 57)
   | _ => false)

/-- The final reserved-name guard of `sanitizeFilename`. -/
def reservedFix (l : List Char) : List Char :=
  if isReservedBase (baseOf l) then '_' :: l else l

/-- `sanitizeFilename` (src/lib/utils.js).  `now` is the value `Date.now()`
would return in the fallback branches. -/
def sanitizeFilename (filename : String) (now : Nat) : String :=
  if filename = "" then ⟨"default_filename_".data ++ natChars now⟩
  else
    let s2 := truncate180 (presan filename.data)
    if s2 = [] ∨ s2 = ['.'] ∨ s2 = ['.', '.'] then
      ⟨"downloaded_file_".data ++ natChars now⟩
    else ⟨reservedFix s2⟩

/-! ## `applyTokenToFilename` (src/lib/utils.js lines 44-63) -/

/-- Global literal replacement, JavaScript style: scan left to right,
replace each non-overlapping occurrence, continue after the inserted
replacement.  Structural recursion on a fuel argument; the fuel-exhausted
branch (unreachable when fuel ≥ the list length) leaves the rest
untouched. -/
def replaceAllGo (pat repl : List Char) : Nat → List Char → List Char
  | _, [] => []
  | 0, l => l
  | fuel + 1, c :: rest =>
    if pat ≠ [] ∧ pat.isPrefixOf (c :: rest) then
      repl ++ replaceAllGo pat repl fuel ((c :: rest).drop pat.length)
    else c :: replaceAllGo pat repl fuel rest

def replaceAll (pat repl : List Char) (l : List Char) : List Char :=
  replaceAllGo pat repl l.length l

/-- The light per-token-value sanitization `replace(/[<>:"\/\\|?*]/g, '_')`. -/
def basicTokenSan (l : List Char) : List Char :=
  l.map (fun c =>
    let n := c.toNat
    if n == 60 || n == 62 || n == 58 || n == 34 || n == 47 || n == 92 ||
       n == 124 || n == 63 || n == 42 then '_' else c)

/-- `replace(/{[^}]+}/g, '')`: every `{`…`}` group with at least one
non-`}` character inside is deleted; a `{` with no such closing match is
kept and scanning resumes after it. -/
def removeTokensGo : Nat → List Char → List Char
  | _, [] => []
  | 0, l => l
  | fuel + 1, c :: rest =>
    let inner := rest.takeWhile (fun x => x ≠ Char.ofNat 125)
    if c == Char.ofNat 123 ∧ ¬ inner.isEmpty ∧ inner.length < rest.length then
      removeTokensGo fuel (rest.drop (inner.length + 1))
    else c :: removeTokensGo fuel rest

def removeTokens (l : List Char) : List Char := removeTokensGo l.length l

/-- `String.prototype.trim`. -/
def trimJs (l : List Char) : List Char :=
  ((l.dropWhile isJsSpace).reverse.dropWhile isJsSpace).reverse

/-- `replace(/^[-_]+|[-_]+$/g, '')`. -/
def trimSeps (l : List Char) : List Char :=
  ((l.dropWhile isSep).reverse.dropWhile isSep).reverse

/-- `applyTokenToFilename` (src/lib/utils.js).  `data` is the token map in
object-key order; values are already strings.  `now` is `Date.now()` for the
empty-result fallback. -/
def applyTokenToFilename (rule : String) (data : List (String × String)) (now : Nat) : String :=
  let afterLoop := data.foldl
    (fun result kv =>
      replaceAll (Char.ofNat 123 :: kv.1.data ++ [Char.ofNat 125])
        (basicTokenSan kv.2.data) result)
    rule.data
  let r1 := trimJs (removeTokens afterLoop)
  let r2 := squashRuns2 isUnd '_' r1
  let r3 := squashRuns2 isDash '-' r2
  let r4 := squashRuns2 isSep '_' r3
  let r5 := trimSeps r4
  if r5 = [] then ⟨"default_name_".data ++ natChars now⟩ else ⟨r5⟩

/-! ## The download orchestration engine (src/unnamed/part_003)

The background service worker is embedded as a state machine over its
module globals.  One source fact dominates its runtime behaviour: the file
is an ES module (top-level `import` declarations, lines 1-2), so its code
runs in strict mode, and the identifier `isDownloading` — assigned at lines
203, 209, 217, 233 and 239 — is declared nowhere in the extension.  In
strict mode an assignment to an undeclared identifier throws a
`ReferenceError`, and every branch of `startProcessingQueue` performs such
an assignment as its first effectful statement.  The dispatch loop, the
per-item `downloadPhoto` settlements, the `setTimeout` re-entries and the
per-batch options re-reads are therefore all unreachable: the embedding
models `startProcessingQueue` as a call that always throws without changing
state, and the rejection it causes is propagated to the message handler's
`.catch`, which emits the job-level `downloadError`.

The one genuine asynchronous boundary that remains is the
`await getOptions()` at line 131 of `processPhotosDownload`: a job-start
message handler runs synchronously up to it, and the rest of the function
runs as a continuation when the storage read resolves (a cancellation
request can be processed in between).  `EngineState.pending` records that
suspended continuation. -/

/-- The persisted options object (`defaultOptions` shape). -/
structure Options where
  folderNameRule : String
  fileNameRule : String
  fileNameIndexPadding : Nat
  imageFormat : String
  skipDownloaded : Bool
  concurrentDownloads : Nat
  delayBetweenDownloads : Nat
deriving DecidableEq

def defaultOptions : Options :=
  { folderNameRule := "\x7balbum_name\x7d"
    fileNameRule := "\x7bindex\x7d_\x7boriginal_name\x7d"
    fileNameIndexPadding := 3
    imageFormat := "original"
    skipDownloaded := true
    concurrentDownloads := 3
    delayBetweenDownloads := 500 }

/-- A `new Date()` snapshot: calendar fields (month 1-12, as
`getMonth() + 1`) plus the epoch value `getTime()` in milliseconds. -/
structure DateParts where
  year : Nat
  month : Nat
  day : Nat
  hour : Nat
  minute : Nat
  second : Nat
  epochMs : Nat
deriving DecidableEq

/-- `String(n).padStart(w, '0')`. -/
def padStartChars (l : List Char) (w : Nat) (c : Char) : List Char :=
  List.replicate (w - l.length) c ++ l

def pad2 (n : Nat) : String := ⟨padStartChars (natChars n) 2 '0'⟩

def dateYMD (d : DateParts) : String :=
  natStr d.year ++ "-" ++ pad2 d.month ++ "-" ++ pad2 d.day

def dateMDY (d : DateParts) : String :=
  pad2 d.month ++ "-" ++ pad2 d.day ++ "-" ++ natStr d.year

def dateDMY (d : DateParts) : String :=
  pad2 d.day ++ "-" ++ pad2 d.month ++ "-" ++ natStr d.year

def timeHMS (d : DateParts) : String :=
  pad2 d.hour ++ "-" ++ pad2 d.minute ++ "-" ++ pad2 d.second

/-- A photo record handed to `processPhotosDownload` (`""` plays the role of
a missing/falsy field). -/
structure Photo where
  id : String
  url : String
  originalName : String
deriving DecidableEq

/-- One element of `downloadQueue`. -/
structure QueueItem where
  url : String
  id : String
  originalName : String
  albumName : String
  baseFolderName : String
  index : Nat
  tabId : Nat
  options : Options
  date : DateParts
deriving DecidableEq

/-- A notification sent to the popup by `notifyPopup`. -/
inductive Event where
  | downloadProgress (processed total : Nat) (albumName : String)
  | downloadComplete (albumName message : String)
  | downloadError (message : String)
  | downloadCancelled (albumName : String)
deriving DecidableEq

/-- The suspended rest of `processPhotosDownload`, waiting on the
`getOptions()` read (line 131): the closure captures the photos array, the
collection name and the tab id. -/
structure PendingJob where
  photos : List Photo
  name : String
  tabId : Nat
deriving DecidableEq

/-- The module-level mutable state of the service worker (lines 14-21),
the emitted notification stream, and the one suspended continuation the
event loop can hold.  There is no `isDownloading` field: that identifier is
never declared, so it never holds a value — assigning it throws (see
`startProcessingQueue`).  `activeDownloads` keeps the source's numeric
type; it is `0` in every reachable state, because the only code that would
change it (lines 224 and 227) is unreachable.  `currentTabId = 0` models a
null tab id. -/
structure EngineState where
  downloadQueue : List QueueItem
  activeDownloads : Int
  isCancelled : Bool
  totalPhotos : Nat
  processedPhotos : Nat
  downloadedFileIds : List String
  currentCollectionName : String
  currentTabId : Nat
  pending : Option PendingJob
  events : List Event
deriving DecidableEq

/-- `notifyPopup`: fire-and-forget, only when a tab id is set. -/
def notify (s : EngineState) (e : Event) : EngineState :=
  if s.currentTabId ≠ 0 then { s with events := s.events ++ [e] } else s

/-- The state of the worker before any job: empty queue and counters, the
dedup ledger as loaded from `chrome.storage.local`. -/
def initState (ledger : List String) : EngineState :=
  { downloadQueue := [], activeDownloads := 0, isCancelled := false
    totalPhotos := 0, processedPhotos := 0
    downloadedFileIds := ledger, currentCollectionName := "", currentTabId := 0
    pending := none, events := [] }

/-- The shared preamble of the three job-starting message handlers:
`currentTabId = tabId; isCancelled = false; currentCollectionName = ...`. -/
def jobStart (tabId : Nat) (collectionName : String) (s : EngineState) : EngineState :=
  { s with currentTabId := tabId, isCancelled := false
           currentCollectionName := collectionName }

/-- The `cancelDownload` message handler (lines 86-93): set the flag, clear
the pending queue, notify the popup immediately. -/
def cancelJob (s : EngineState) : EngineState :=
  notify { s with isCancelled := true, downloadQueue := [] }
    (Event.downloadCancelled s.currentCollectionName)

/-- `startProcessingQueue` (lines 200-245).  Every branch assigns the
undeclared `isDownloading` before any other effect: line 203 in the
cancellation branch (before the queue reset of lines 204-205), line 209 in
the empty-and-idle branch (before the completion notification at line 212),
and line 217 in the main branch (before the `getOptions()` read at line 218
and the registration of the dispatch continuation at line 220).  In the
strict-mode module that assignment throws a `ReferenceError`, so the call
always throws with no state change; the `Bool` records the throw. -/
def startProcessingQueue (s : EngineState) : EngineState × Bool :=
  if s.isCancelled then
    (s, true)
  else if s.downloadQueue.isEmpty ∧ s.activeDownloads = 0 then
    (s, true)
  else
    (s, true)

/-- The collection-level token map built in `processPhotosDownload`. -/
def folderTokens (d : DateParts) (collectionName : String) : List (String × String) :=
  [("album_name", collectionName), ("owner_name", "FacebookUser"),
   ("date_YYYY-MM-DD", dateYMD d), ("date_MM-DD-YYYY", dateMDY d),
   ("date_DD-MM-YYYY", dateDMY d),
   ("timestamp_unix", natStr (d.epochMs / 1000)), ("year", natStr d.year),
   ("month", pad2 d.month), ("day", pad2 d.day)]

/-- One entry of `photosToQueue.map((photo, index) => ...)`; `pi` is the
zero-based index paired with the photo. -/
def mkQueueItem (collectionName : String) (tabId : Nat) (options : Options)
    (d : DateParts) (base : String) (pi : Nat × Photo) : QueueItem :=
  { url := pi.2.url
    id := pi.2.id
    originalName :=
      if pi.2.originalName ≠ "" then pi.2.originalName
      else (if pi.2.id ≠ "" then pi.2.id else "photo_" ++ natStr pi.1) ++ ".jpg"
    albumName := collectionName
    baseFolderName := base
    index := pi.1 + 1
    tabId := tabId
    options := options
    date := d }

/-- Lines 137-145 of `processPhotosDownload`: the dedup-ledger filter. -/
def toQueueOf (options : Options) (ledger : List String) (photos : List Photo) :
    List Photo :=
  if options.skipDownloaded then
    photos.filter (fun p => !(ledger.contains p.id))
  else photos

/-- Lines 133-197 of `processPhotosDownload`: the part that runs once the
options value is available (for the post/single-photo handlers this is the
continuation of the `await getOptions()` at line 131).  `d` is the
`new Date()` snapshot of line 160.  The nothing-to-do path (lines 147-150)
completes normally; otherwise the queue is built (line 182) and
`startProcessingQueue()` is called (line 197), whose `ReferenceError`
propagates out of the async function as a rejection — recorded in the
`Bool` — while the global mutations already made, including the queue,
persist. -/
def processPhotosBody (photos : List Photo) (collectionName : String)
    (tabId : Nat) (options : Options) (d : DateParts) (s : EngineState) :
    EngineState × Bool :=
  let sA := { s with totalPhotos := photos.length, processedPhotos := 0 }
  let sB := notify sA (Event.downloadProgress 0 photos.length collectionName)
  let toQueue := toQueueOf options s.downloadedFileIds photos
  if toQueue.isEmpty then
    (notify sB (Event.downloadComplete collectionName
      "All photos already downloaded or collection is empty."), false)
  else
    let sC := { sB with totalPhotos := toQueue.length }
    if toQueue.length == 0 then
      (notify sC (Event.downloadComplete collectionName
        "All photos already downloaded."), false)
    else
      let sD := notify sC (Event.downloadProgress 0 toQueue.length collectionName)
      let baseFolderName :=
        applyTokenToFilename options.folderNameRule (folderTokens d collectionName) d.epochMs
      let queue := toQueue.enum.map
        (mkQueueItem collectionName tabId options d (sanitizeFilename baseFolderName d.epochMs))
      startProcessingQueue { sD with downloadQueue := queue }

/-- `processPhotosDownload` (lines 129-198) when an options object is
passed explicitly (the album path, line 120): no await separates the
line-130 cancellation check from the body, so the whole function runs in
one turn. -/
def processPhotosDownload (photos : List Photo) (collectionName : String)
    (tabId : Nat) (options : Options) (d : DateParts) (s : EngineState) :
    EngineState × Bool :=
  if s.isCancelled then (s, false)
  else processPhotosBody photos collectionName tabId options d s

/-- The `downloadPhotosFromPost` / `downloadSinglePhoto` message handlers
(lines 57-85): the job preamble, then `processPhotosDownload` up to the
`await getOptions()` of line 131.  The line-130 check reads the
cancellation flag the handler itself just cleared, so the job always
suspends with its continuation pending. -/
def msgStartPhotos (photos : List Photo) (collectionName : String)
    (tabId : Nat) (s : EngineState) : EngineState :=
  let s1 := jobStart tabId collectionName s
  if s1.isCancelled then s1
  else { s1 with pending := some ⟨photos, collectionName, tabId⟩ }

/-- The event-loop turn in which the pending job's `getOptions()` promise
resolves with `opts` and the rest of `processPhotosDownload` runs.  When
the body rejects — it does whenever the dedup filter leaves work to do —
the handler's `.catch` (lines 65-69 / 80-84) emits the job-level
`downloadError` carrying the `ReferenceError`'s message. -/
def msgResume (opts : Options) (d : DateParts) (s : EngineState) : EngineState :=
  match s.pending with
  | none => s
  | some j =>
    if (processPhotosBody j.photos j.name j.tabId opts d { s with pending := none }).2 = true then
      notify (processPhotosBody j.photos j.name j.tabId opts d { s with pending := none }).1
        (Event.downloadError "isDownloading is not defined")
    else
      (processPhotosBody j.photos j.name j.tabId opts d { s with pending := none }).1

/-! ### Event-loop schedules

A schedule is a sequence of event-loop turns: job-start messages,
cancellation messages, and resolutions of a pending options read (carrying
the options value the `chrome.storage` read returned and the `new Date()`
snapshot).  No other turn exists: the timers, promise settlements and
dispatch continuations of the intended design are never created, because
`startProcessingQueue` throws before registering any of them. -/

inductive EngineAction where
  | start (photos : List Photo) (name : String) (tabId : Nat)
  | cancel
  | resume (opts : Options) (d : DateParts)
deriving DecidableEq

/-- One event-loop turn. -/
def stepE (a : EngineAction) (s : EngineState) : EngineState :=
  match a with
  | EngineAction.start photos name tabId => msgStartPhotos photos name tabId s
  | EngineAction.cancel => cancelJob s
  | EngineAction.resume opts d => msgResume opts d s

def runActions : List EngineAction → EngineState → EngineState
  | [], s => s
  | a :: rest, s => runActions rest (stepE a s)

/-- Job-starting actions (the only ones that reset the cancellation flag). -/
def isStartAction : EngineAction → Bool
  | EngineAction.start _ _ _ => true
  | _ => false

/-- Terminal notifications in the sense of spec section 7. -/
def isTerminalEvent : Event → Bool
  | Event.downloadComplete _ _ => true
  | Event.downloadCancelled _ => true
  | Event.downloadError _ => true
  | _ => false

/-- A complete, uninterrupted run of one post/single-photo job: the start
message followed by the resolution of its options read.  `reads` is the
sequence of values successive `chrome.storage` options reads return; the
job performs exactly one read (line 131) — the per-batch re-read at line
218 is unreachable. -/
def jobRun (photos : List Photo) (name : String) (tabId : Nat)
    (reads : List Options) (d : DateParts) (s : EngineState) : EngineState :=
  msgResume (reads.headD defaultOptions) d (msgStartPhotos photos name tabId s)

/-! ## Auxiliary predicates for the statements -/

/-- No two adjacent characters of `l` both satisfy `p`. -/
def noTwoAdj (p : Char → Bool) : List Char → Bool
  | [] => true
  | [_] => true
  | a :: b :: rest => !(p a && p b) && noTwoAdj p (b :: rest)

/-- The first character (if any) does not satisfy `p`. -/
def headNot (p : Char → Bool) : List Char → Bool
  | [] => true
  | a :: _ => !p a

/-- The last character (if any) does not satisfy `p`. -/
def lastNot (p : Char → Bool) (l : List Char) : Bool := headNot p l.reverse

/-- The shape every `presan` output has: no problematic characters, no
whitespace, no adjacent dots or adjacent underscores, no edge dots. -/
def sanNormal (l : List Char) : Bool :=
  l.all (fun c => !isBadFileChar c && !isJsSpace c) &&
  noTwoAdj isDot l && noTwoAdj isUnd l && headNot isDot l && lastNot isDot l

/-- Recognizer for templates consisting only of separator characters
(`-`/`_`) and complete nonempty `{`…`}` placeholder groups. -/
def isSepTokGo : Nat → List Char → Bool
  | _, [] => true
  | 0, _ => false
  | fuel + 1, c :: rest =>
    if isSep c then isSepTokGo fuel rest
    else if c == Char.ofNat 123 then
      let inner := rest.takeWhile (fun x => x ≠ Char.ofNat 125)
      (!inner.isEmpty && decide (inner.length < rest.length)) &&
        isSepTokGo fuel (rest.drop (inner.length + 1))
    else false

def isSepTok (l : List Char) : Bool := isSepTokGo l.length l

/-! ## Concrete scenario data -/

def cDate : DateParts := ⟨2024, 5, 6, 7, 8, 9, 1714900000000⟩

def cPhoto (i : String) : Photo := ⟨i, "https://x/" ++ i, i ++ ".jpg"⟩

/-- Options as persisted at job start in the scenarios: concurrency 2. -/
def cOpts2 : Options := { defaultOptions with concurrentDownloads := 2 }

/-- A 181-character name whose only dot sits right after the first
character, so the whole tail is matched as the "extension" by the length
cap. -/
def c7Input : String := ⟨'a' :: '.' :: List.replicate 179 'b'⟩


/-! # Theorems -/

/-! ## Field lemmas for the faithful engine transitions -/

theorem startProcessingQueue_throws (s : EngineState) :
    startProcessingQueue s = (s, true) := by
  unfold startProcessingQueue
  split_ifs <;> rfl

theorem notify_of_tab (s : EngineState) (e : Event) (h : s.currentTabId ≠ 0) :
    notify s e = { s with events := s.events ++ [e] } := by
  unfold notify
  rw [if_pos h]

theorem notify_fields (s : EngineState) (e : Event) :
    (notify s e).downloadQueue = s.downloadQueue ∧
    (notify s e).activeDownloads = s.activeDownloads ∧
    (notify s e).isCancelled = s.isCancelled ∧
    (notify s e).totalPhotos = s.totalPhotos ∧
    (notify s e).processedPhotos = s.processedPhotos ∧
    (notify s e).downloadedFileIds = s.downloadedFileIds ∧
    (notify s e).currentCollectionName = s.currentCollectionName ∧
    (notify s e).currentTabId = s.currentTabId ∧
    (notify s e).pending = s.pending := by
  unfold notify
  split_ifs <;> exact ⟨rfl, rfl, rfl, rfl, rfl, rfl, rfl, rfl, rfl⟩

theorem cancelJob_fields (s : EngineState) :
    (cancelJob s).activeDownloads = s.activeDownloads ∧
    (cancelJob s).processedPhotos = s.processedPhotos ∧
    (cancelJob s).totalPhotos = s.totalPhotos ∧
    (cancelJob s).isCancelled = true ∧
    (cancelJob s).currentTabId = s.currentTabId ∧
    (cancelJob s).currentCollectionName = s.currentCollectionName ∧
    (cancelJob s).downloadedFileIds = s.downloadedFileIds := by
  unfold cancelJob notify
  split_ifs <;> exact ⟨rfl, rfl, rfl, rfl, rfl, rfl, rfl⟩

theorem msgStartPhotos_eq (photos : List Photo) (name : String) (tabId : Nat)
    (s : EngineState) :
    msgStartPhotos photos name tabId s =
      { s with currentTabId := tabId
               isCancelled := false
               currentCollectionName := name
               pending := some ⟨photos, name, tabId⟩ } := by
  simp only [msgStartPhotos, jobStart]
  rw [if_neg Bool.false_ne_true]

theorem msgResume_of_pending (opts : Options) (d : DateParts) (s : EngineState)
    (photos : List Photo) (name : String) (tabId : Nat)
    (h : s.pending = some ⟨photos, name, tabId⟩) :
    msgResume opts d s =
      (if (processPhotosBody photos name tabId opts d { s with pending := none }).2 = true then
        notify (processPhotosBody photos name tabId opts d { s with pending := none }).1
          (Event.downloadError "isDownloading is not defined")
      else
        (processPhotosBody photos name tabId opts d { s with pending := none }).1) := by
  simp only [msgResume, h]

theorem processPhotosBody_fields (photos : List Photo) (name : String)
    (tabId : Nat) (opts : Options) (d : DateParts) (s : EngineState) :
    (processPhotosBody photos name tabId opts d s).1.activeDownloads = s.activeDownloads ∧
    (processPhotosBody photos name tabId opts d s).1.processedPhotos = 0 ∧
    (processPhotosBody photos name tabId opts d s).1.isCancelled = s.isCancelled ∧
    (processPhotosBody photos name tabId opts d s).1.currentTabId = s.currentTabId ∧
    (processPhotosBody photos name tabId opts d s).1.downloadedFileIds = s.downloadedFileIds ∧
    (processPhotosBody photos name tabId opts d s).1.currentCollectionName
      = s.currentCollectionName ∧
    (processPhotosBody photos name tabId opts d s).1.pending = s.pending := by
  simp only [processPhotosBody, notify, startProcessingQueue]
  repeat' split
  all_goals exact ⟨rfl, rfl, rfl, rfl, rfl, rfl, rfl⟩

theorem msgStartPhotos_fields (photos : List Photo) (name : String)
    (tabId : Nat) (s : EngineState) :
    (msgStartPhotos photos name tabId s).activeDownloads = s.activeDownloads ∧
    (msgStartPhotos photos name tabId s).processedPhotos = s.processedPhotos ∧
    (msgStartPhotos photos name tabId s).totalPhotos = s.totalPhotos ∧
    (msgStartPhotos photos name tabId s).downloadedFileIds = s.downloadedFileIds := by
  rw [msgStartPhotos_eq]
  exact ⟨rfl, rfl, rfl, rfl⟩

theorem msgResume_fields (opts : Options) (d : DateParts) (s : EngineState) :
    (msgResume opts d s).activeDownloads = s.activeDownloads ∧
    ((msgResume opts d s).processedPhotos = s.processedPhotos ∨
      (msgResume opts d s).processedPhotos = 0) ∧
    (msgResume opts d s).isCancelled = s.isCancelled ∧
    (msgResume opts d s).downloadedFileIds = s.downloadedFileIds := by
  unfold msgResume
  split
  · exact ⟨rfl, Or.inl rfl, rfl, rfl⟩
  · next j heq =>
    split
    · obtain ⟨ha, hp, hc, ht, hl, hn, hpd⟩ :=
        processPhotosBody_fields j.photos j.name j.tabId opts d { s with pending := none }
      obtain ⟨_, na, nc, _, np, nl, _, _, _⟩ :=
        notify_fields (processPhotosBody j.photos j.name j.tabId opts d
          { s with pending := none }).1 (Event.downloadError "isDownloading is not defined")
      refine ⟨na.trans ha, Or.inr (np.trans hp), nc.trans hc, nl.trans hl⟩
    · obtain ⟨ha, hp, hc, ht, hl, hn, hpd⟩ :=
        processPhotosBody_fields j.photos j.name j.tabId opts d { s with pending := none }
      exact ⟨ha, Or.inr hp, hc, hl⟩

/-- The state invariant that survives every event-loop turn: the worker
pool is empty and nothing has ever been processed (the code that would
change either counter is unreachable). -/
theorem stepE_inv (a : EngineAction) (s : EngineState)
    (h : s.activeDownloads = 0 ∧ s.processedPhotos = 0) :
    (stepE a s).activeDownloads = 0 ∧ (stepE a s).processedPhotos = 0 := by
  cases a with
  | start photos name tabId =>
    obtain ⟨ha, hp, _, _⟩ := msgStartPhotos_fields photos name tabId s
    exact ⟨ha.trans h.1, hp.trans h.2⟩
  | cancel =>
    obtain ⟨ha, hp, _, _, _, _, _⟩ := cancelJob_fields s
    exact ⟨ha.trans h.1, hp.trans h.2⟩
  | resume opts d =>
    obtain ⟨ha, hp, _, _⟩ := msgResume_fields opts d s
    refine ⟨ha.trans h.1, ?_⟩
    rcases hp with hp | hp
    · exact hp.trans h.2
    · exact hp

theorem runActions_inv (acts : List EngineAction) (s : EngineState)
    (h : s.activeDownloads = 0 ∧ s.processedPhotos = 0) :
    (runActions acts s).activeDownloads = 0 ∧
    (runActions acts s).processedPhotos = 0 := by
  induction acts generalizing s with
  | nil => exact h
  | cons a rest ih => exact ih (stepE a s) (stepE_inv a s h)

theorem stepE_cancelled_keep (a : EngineAction) (s : EngineState)
    (ha : isStartAction a = false) (h : s.isCancelled = true) :
    (stepE a s).isCancelled = true := by
  cases a with
  | start photos name tabId => simp [isStartAction] at ha
  | cancel => exact (cancelJob_fields s).2.2.2.1
  | resume opts d => exact (msgResume_fields opts d s).2.2.1.trans h

theorem runActions_cancelled_keep (acts : List EngineAction) (s : EngineState)
    (hacts : ∀ a ∈ acts, isStartAction a = false) (h : s.isCancelled = true) :
    (runActions acts s).isCancelled = true := by
  induction acts generalizing s with
  | nil => exact h
  | cons a rest ih =>
    exact ih (stepE a s) (fun b hb => hacts b (List.mem_cons_of_mem a hb))
      (stepE_cancelled_keep a s (hacts a (List.mem_cons_self a rest)) h)

theorem processPhotosBody_of_empty (photos : List Photo) (name : String)
    (tabId : Nat) (opts : Options) (d : DateParts) (s : EngineState)
    (htab : s.currentTabId ≠ 0)
    (hq : toQueueOf opts s.downloadedFileIds photos = []) :
    processPhotosBody photos name tabId opts d s =
      ({ s with totalPhotos := photos.length
                processedPhotos := 0
                events := s.events ++
                  [Event.downloadProgress 0 photos.length name,
                   Event.downloadComplete name
                     "All photos already downloaded or collection is empty."] },
       false) := by
  simp only [processPhotosBody, notify, hq]
  rw [if_pos (show (([] : List Photo).isEmpty = true) from rfl)]
  split_ifs <;> first
    | simp [List.append_assoc]
    | simp_all

theorem processPhotosBody_of_ne (photos : List Photo) (name : String)
    (tabId : Nat) (opts : Options) (d : DateParts) (s : EngineState)
    (htab : s.currentTabId ≠ 0)
    (hq : toQueueOf opts s.downloadedFileIds photos ≠ []) :
    processPhotosBody photos name tabId opts d s =
      ({ s with
          totalPhotos := (toQueueOf opts s.downloadedFileIds photos).length
          processedPhotos := 0
          downloadQueue := (toQueueOf opts s.downloadedFileIds photos).enum.map
            (mkQueueItem name tabId opts d
              (sanitizeFilename
                (applyTokenToFilename opts.folderNameRule (folderTokens d name) d.epochMs)
                d.epochMs))
          events := s.events ++
            [Event.downloadProgress 0 photos.length name,
             Event.downloadProgress 0
               (toQueueOf opts s.downloadedFileIds photos).length name] },
       true) := by
  have hq1 : (toQueueOf opts s.downloadedFileIds photos).isEmpty = false := by
    cases hE : (toQueueOf opts s.downloadedFileIds photos).isEmpty with
    | false => rfl
    | true => exact absurd (List.isEmpty_iff.mp hE) hq
  have hq2 : ((toQueueOf opts s.downloadedFileIds photos).length == 0) = false := by
    cases hL : (toQueueOf opts s.downloadedFileIds photos).length == 0 with
    | false => rfl
    | true =>
      exact absurd (List.length_eq_zero.mp (by simpa using hL)) hq
  simp only [processPhotosBody, notify, hq1, hq2, Bool.false_eq_true, if_false,
    startProcessingQueue_throws]
  split_ifs <;> first
    | simp [List.append_assoc]
    | simp_all

/-- C1: a job run to completion — start message, then its single options
read resolving, with no cancellation in between — emits exactly one
terminal event.  When the dedup filter clears the list it is the
nothing-to-do `downloadComplete` of line 148; otherwise it is the
job-level `downloadError` from the `ReferenceError` the queue-drain
routine throws on the undeclared `isDownloading`, so the intended
per-item dispatch — and with it any duplicate completion from later
re-entries into the drain routine — never happens. -/
theorem c1_one_terminal_event (photos : List Photo) (name : String)
    (tabId : Nat) (opts : Options) (d : DateParts) (ledger : List String)
    (htab : tabId ≠ 0) :
    ((jobRun photos name tabId [opts] d (initState ledger)).events.countP
      isTerminalEvent) = 1 := by
  unfold jobRun
  rw [msgStartPhotos_eq, List.headD_cons,
    msgResume_of_pending opts d _ photos name tabId rfl]
  by_cases hq : toQueueOf opts ledger photos = []
  · rw [processPhotosBody_of_empty photos name tabId opts d _ htab hq]
    simp [isTerminalEvent, initState, List.countP_cons, List.countP_nil]
  · rw [processPhotosBody_of_ne photos name tabId opts d _ htab hq]
    simp [isTerminalEvent, initState, notify, htab,
      List.countP_cons, List.countP_nil, List.countP_append]

theorem c1_witness :
    (1 : Nat) ≠ 0 ∧
    ((jobRun [cPhoto "w1"] "W" 1 [cOpts2] cDate (initState [])).events.countP
      isTerminalEvent) = 1 :=
  ⟨by decide, c1_one_terminal_event [cPhoto "w1"] "W" 1 cOpts2 cDate [] (by decide)⟩

/-- C2 fails as stated: cancelling a one-photo job while it awaits its
options read (the `await getOptions()` at line 131) emits the
`downloadCancelled` event at once, and when the read resolves the job
still emits two `downloadProgress` events — and then the job-level error —
after that `downloadCancelled` event, contradicting "no progress event is
emitted after that Cancelled event". -/
theorem c2_counterexample :
    (runActions
      [EngineAction.start [cPhoto "q1"] "B" 1,
       EngineAction.cancel,
       EngineAction.resume cOpts2 cDate]
      (initState [])).events =
      [Event.downloadCancelled "B",
       Event.downloadProgress 0 1 "B",
       Event.downloadProgress 0 1 "B",
       Event.downloadError "isDownloading is not defined"] := by
  decide

/-- C2 amended: the `cancelDownload` handler emits `downloadCancelled`
immediately at the request, at which instant the active count is zero —
indeed `activeDownloads` is zero in every reachable state, since the
dispatch loop that would raise it is unreachable — so "after every
in-flight worker has drained" holds only vacuously; and, as
`c2_counterexample` shows, progress events of the cancelled job can still
follow the `downloadCancelled` event. -/
theorem c2_amended (ledger : List String) (acts : List EngineAction)
    (htab : (runActions acts (initState ledger)).currentTabId ≠ 0) :
    (runActions acts (initState ledger)).activeDownloads = 0 ∧
    (cancelJob (runActions acts (initState ledger))).events =
      (runActions acts (initState ledger)).events ++
        [Event.downloadCancelled
          (runActions acts (initState ledger)).currentCollectionName] := by
  refine ⟨(runActions_inv acts (initState ledger) ⟨rfl, rfl⟩).1, ?_⟩
  unfold cancelJob
  rw [notify_of_tab
    { runActions acts (initState ledger) with isCancelled := true, downloadQueue := [] }
    (Event.downloadCancelled (runActions acts (initState ledger)).currentCollectionName)
    htab]

theorem c2_amended_witness :
    (runActions [EngineAction.start [cPhoto "w2"] "B" 1]
      (initState [])).currentTabId ≠ 0 ∧
    (cancelJob (runActions [EngineAction.start [cPhoto "w2"] "B" 1]
      (initState []))).events =
      (runActions [EngineAction.start [cPhoto "w2"] "B" 1] (initState [])).events ++
        [Event.downloadCancelled
          (runActions [EngineAction.start [cPhoto "w2"] "B" 1]
            (initState [])).currentCollectionName] :=
  ⟨by decide, (c2_amended [] [EngineAction.start [cPhoto "w2"] "B" 1] (by decide)).2⟩

/-- C3: in every reachable state the JobState invariant holds: the
processed count — identically zero, since no settlement ever runs — never
exceeds the total; the active count — identically zero, since no dispatch
ever runs — never exceeds the configured concurrency; and once the
cancellation flag is set, only a job-starting message (the start of the
next job) ever resets it. -/
theorem c3_jobstate_invariant (ledger : List String) (opts : Options)
    (acts more : List EngineAction)
    (hmore : ∀ a ∈ more, isStartAction a = false) :
    (runActions acts (initState ledger)).processedPhotos ≤
      (runActions acts (initState ledger)).totalPhotos ∧
    (runActions acts (initState ledger)).activeDownloads ≤
      (opts.concurrentDownloads : Int) ∧
    ((runActions acts (initState ledger)).isCancelled = true →
      (runActions more (runActions acts (initState ledger))).isCancelled = true) := by
  obtain ⟨ha, hp⟩ := runActions_inv acts (initState ledger) ⟨rfl, rfl⟩
  refine ⟨?_, ?_, ?_⟩
  · rw [hp]
    exact Nat.zero_le _
  · rw [ha]
    exact Int.natCast_nonneg _
  · intro hc
    exact runActions_cancelled_keep more _ hmore hc

theorem c3_witness :
    (∀ a ∈ ([EngineAction.resume cOpts2 cDate] : List EngineAction),
      isStartAction a = false) ∧
    (runActions [EngineAction.start [cPhoto "w3"] "A" 1, EngineAction.cancel]
      (initState [])).processedPhotos ≤
      (runActions [EngineAction.start [cPhoto "w3"] "A" 1, EngineAction.cancel]
        (initState [])).totalPhotos ∧
    (runActions [EngineAction.start [cPhoto "w3"] "A" 1, EngineAction.cancel]
      (initState [])).activeDownloads ≤ (cOpts2.concurrentDownloads : Int) ∧
    (runActions [EngineAction.resume cOpts2 cDate]
      (runActions [EngineAction.start [cPhoto "w3"] "A" 1, EngineAction.cancel]
        (initState []))).isCancelled = true := by
  have h := c3_jobstate_invariant [] cOpts2
    [EngineAction.start [cPhoto "w3"] "A" 1, EngineAction.cancel]
    [EngineAction.resume cOpts2 cDate] (by decide)
  exact ⟨by decide, h.1, h.2.1, h.2.2 (by decide)⟩

/-- C4: with `skipDownloaded = true` and every photo of the job already in
the dedup ledger — the only way a run can succeed for all items, since the
download path itself is unreachable — the first run completes via the
nothing-to-do path (lines 147-150), downloads nothing and leaves the
ledger untouched; running the identical job again downloads zero items
(every id is again filtered out by the ledger) and also ends with the
`downloadComplete` terminal event, not an error. -/
theorem c4_skip_idempotent (photos : List Photo) (name name2 : String)
    (tabId : Nat) (opts : Options) (d d2 : DateParts) (ledger : List String)
    (hskip : opts.skipDownloaded = true) (htab : tabId ≠ 0)
    (hcov : ∀ p ∈ photos, p.id ∈ ledger) :
    (jobRun photos name tabId [opts] d (initState ledger)).events =
      [Event.downloadProgress 0 photos.length name,
       Event.downloadComplete name
         "All photos already downloaded or collection is empty."] ∧
    (jobRun photos name tabId [opts] d (initState ledger)).downloadedFileIds = ledger ∧
    (jobRun photos name tabId [opts] d (initState ledger)).downloadQueue = [] ∧
    (jobRun photos name2 tabId [opts] d2
        (jobRun photos name tabId [opts] d (initState ledger))).events =
      (jobRun photos name tabId [opts] d (initState ledger)).events ++
        [Event.downloadProgress 0 photos.length name2,
         Event.downloadComplete name2
           "All photos already downloaded or collection is empty."] ∧
    (jobRun photos name2 tabId [opts] d2
        (jobRun photos name tabId [opts] d (initState ledger))).downloadQueue = [] ∧
    (jobRun photos name2 tabId [opts] d2
        (jobRun photos name tabId [opts] d (initState ledger))).downloadedFileIds
      = ledger := by
  have hq : toQueueOf opts ledger photos = [] := by
    unfold toQueueOf
    rw [if_pos hskip, List.filter_eq_nil_iff]
    intro p hp
    simp [List.contains, List.elem_eq_mem, hcov p hp]
  have hrun1 : jobRun photos name tabId [opts] d (initState ledger) =
      { initState ledger with
          currentTabId := tabId
          isCancelled := false
          currentCollectionName := name
          pending := none
          totalPhotos := photos.length
          processedPhotos := 0
          events := [Event.downloadProgress 0 photos.length name,
            Event.downloadComplete name
              "All photos already downloaded or collection is empty."] } := by
    unfold jobRun
    rw [msgStartPhotos_eq, List.headD_cons,
      msgResume_of_pending opts d _ photos name tabId rfl,
      processPhotosBody_of_empty photos name tabId opts d _ htab hq]
    rfl
  rw [hrun1]
  have hrun2 : jobRun photos name2 tabId [opts] d2
      ({ initState ledger with
           currentTabId := tabId
           isCancelled := false
           currentCollectionName := name
           pending := none
           totalPhotos := photos.length
           processedPhotos := 0
           events := [Event.downloadProgress 0 photos.length name,
             Event.downloadComplete name
               "All photos already downloaded or collection is empty."] } : EngineState) =
      { initState ledger with
          currentTabId := tabId
          isCancelled := false
          currentCollectionName := name2
          pending := none
          totalPhotos := photos.length
          processedPhotos := 0
          events := [Event.downloadProgress 0 photos.length name,
            Event.downloadComplete name
              "All photos already downloaded or collection is empty.",
            Event.downloadProgress 0 photos.length name2,
            Event.downloadComplete name2
              "All photos already downloaded or collection is empty."] } := by
    unfold jobRun
    rw [msgStartPhotos_eq, List.headD_cons,
      msgResume_of_pending opts d2 _ photos name2 tabId rfl,
      processPhotosBody_of_empty photos name2 tabId opts d2 _ htab hq]
    rfl
  rw [hrun2]
  exact ⟨rfl, rfl, rfl, rfl, rfl, rfl⟩

theorem c4_witness :
    cOpts2.skipDownloaded = true ∧ (1 : Nat) ≠ 0 ∧
    (∀ p ∈ [cPhoto "a"], p.id ∈ ["a"]) ∧
    (jobRun [cPhoto "a"] "A" 1 [cOpts2] cDate (initState ["a"])).events =
      [Event.downloadProgress 0 1 "A",
       Event.downloadComplete "A"
         "All photos already downloaded or collection is empty."] := by
  have h := c4_skip_idempotent [cPhoto "a"] "A" "A2" 1 cOpts2 cDate cDate ["a"]
    (by decide) (by decide) (by decide)
  exact ⟨by decide, by decide, by decide, h.1⟩

/-- C5 is violated by the code: per-item failure handling (the `.finally`
accounting of lines 225-236 and the per-item error paths of
`downloadPhoto`, lines 278-322) is dead code, because nothing is ever
dispatched.  A fresh two-photo job leaves both items sitting in the queue,
the processed count at zero, and terminates with the single job-level
`downloadError` raised by the `ReferenceError` on the undeclared
`isDownloading` — there is no per-item error notification, no processed
increment, and no sibling dispatch, contrary to the claimed item-level
isolation. -/
theorem c5_no_item_dispatch :
    (jobRun [cPhoto "p1", cPhoto "p2"] "A" 1 [cOpts2] cDate
      (initState [])).downloadQueue.length = 2 ∧
    (jobRun [cPhoto "p1", cPhoto "p2"] "A" 1 [cOpts2] cDate
      (initState [])).processedPhotos = 0 ∧
    (jobRun [cPhoto "p1", cPhoto "p2"] "A" 1 [cOpts2] cDate
      (initState [])).events =
      [Event.downloadProgress 0 2 "A", Event.downloadProgress 0 2 "A",
       Event.downloadError "isDownloading is not defined"] := by
  decide

/-- C6: the options snapshot is read exactly once, at job start (the
`await getOptions()` of line 131); the per-batch re-read at line 218 is
unreachable because `startProcessingQueue` throws first.  Two runs of the
same job whose persisted-options timelines agree on that single job-start
read — and may differ arbitrarily in any later mid-job edit — produce
identical behaviour: the same final state, events included. -/
theorem c6_options_snapshot (photos : List Photo) (name : String)
    (tabId : Nat) (d : DateParts) (s : EngineState) (r1 r2 : List Options)
    (h : r1.head? = r2.head?) :
    jobRun photos name tabId r1 d s = jobRun photos name tabId r2 d s := by
  unfold jobRun
  have hh : r1.headD defaultOptions = r2.headD defaultOptions := by
    cases r1 with
    | nil =>
      cases r2 with
      | nil => rfl
      | cons b t => simp at h
    | cons a t =>
      cases r2 with
      | nil => simp at h
      | cons b t2 =>
        simp only [List.head?_cons, Option.some.injEq] at h
        simp [List.headD_cons, h]
  rw [hh]

theorem c6_witness :
    (([cOpts2, cOpts2] : List Options).head? =
      ([cOpts2, { cOpts2 with concurrentDownloads := 1 }] : List Options).head?) ∧
    jobRun [cPhoto "w6"] "C" 1 [cOpts2, cOpts2] cDate (initState []) =
      jobRun [cPhoto "w6"] "C" 1 [cOpts2, { cOpts2 with concurrentDownloads := 1 }]
        cDate (initState []) :=
  ⟨rfl, c6_options_snapshot [cPhoto "w6"] "C" 1 cDate (initState [])
    [cOpts2, cOpts2] [cOpts2, { cOpts2 with concurrentDownloads := 1 }] rfl⟩


/-! ## Normality toolkit for the sanitizer -/

lemma noTwoAdj_tail (p : Char → Bool) (c : Char) (l : List Char)
    (h : noTwoAdj p (c :: l) = true) : noTwoAdj p l = true := by
  cases l with
  | nil => rfl
  | cons b t => exact (Bool.and_eq_true_iff.mp h).2

lemma noTwoAdj_pair (p : Char → Bool) (a b : Char) (l : List Char)
    (h : noTwoAdj p (a :: b :: l) = true) : (p a && p b) = false := by
  have hx := (Bool.and_eq_true_iff.mp h).1
  cases hab : (p a && p b) with
  | false => rfl
  | true => rw [hab] at hx; simp at hx

lemma noTwoAdj_cons_of (p : Char → Bool) (c : Char) (l : List Char)
    (hc : p c = false) (h : noTwoAdj p l = true) : noTwoAdj p (c :: l) = true := by
  cases l with
  | nil => rfl
  | cons b t => simp [noTwoAdj, hc, h]

lemma noTwoAdj_of_none (p : Char → Bool) (l : List Char)
    (h : ∀ c ∈ l, p c = false) : noTwoAdj p l = true := by
  induction l with
  | nil => rfl
  | cons c t ih =>
    exact noTwoAdj_cons_of p c t (h c (List.mem_cons_self c t))
      (ih fun d hd => h d (List.mem_cons_of_mem c hd))

lemma noTwoAdj_append_left (p : Char → Bool) (l t : List Char)
    (h : noTwoAdj p (l ++ t) = true) : noTwoAdj p l = true := by
  induction l with
  | nil => rfl
  | cons a l ih =>
    cases l with
    | nil => rfl
    | cons b l' =>
      have hp := noTwoAdj_pair p a b (l' ++ t) h
      have ht := noTwoAdj_tail p a (b :: l' ++ t) h
      show (!(p a && p b) && noTwoAdj p (b :: l')) = true
      rw [hp, ih ht]
      rfl

lemma noTwoAdj_append_right (p : Char → Bool) (l t : List Char)
    (h : noTwoAdj p (l ++ t) = true) : noTwoAdj p t = true := by
  induction l with
  | nil => exact h
  | cons a l ih => exact ih (noTwoAdj_tail p a (l ++ t) h)

lemma noTwoAdj_append (p : Char → Bool) (l t : List Char)
    (hl : noTwoAdj p l = true) (ht : noTwoAdj p t = true)
    (hj : ∀ a ∈ l.getLast?, ∀ b ∈ t.head?, (p a && p b) = false) :
    noTwoAdj p (l ++ t) = true := by
  induction l with
  | nil => exact ht
  | cons a l ih =>
    cases l with
    | nil =>
      cases t with
      | nil => rfl
      | cons b t' =>
        have hab := hj a (by simp) b (by simp)
        simp [noTwoAdj, hab, ht]
    | cons b l' =>
      have hp := noTwoAdj_pair p a b l' hl
      have hrest := ih (noTwoAdj_tail p a (b :: l') hl)
        (fun x hx y hy => hj x (by simpa [List.getLast?_cons_cons] using hx) y hy)
      simp only [List.cons_append, noTwoAdj, hp, Bool.not_false, Bool.true_and]
      exact hrest

lemma headNot_cons (p : Char → Bool) (c : Char) (l : List Char) :
    headNot p (c :: l) = !p c := rfl

lemma lastNot_iff (p : Char → Bool) (l : List Char) :
    lastNot p l = true ↔ ∀ x ∈ l.getLast?, p x = false := by
  unfold lastNot
  cases hrev : l.reverse with
  | nil =>
    have : l = [] := by simpa using congrArg List.reverse hrev
    subst this; simp [headNot]
  | cons a t =>
    have hl : l.getLast? = some a := by
      rw [← List.head?_reverse, hrev]; rfl
    rw [hl]
    simp [headNot]

lemma headNot_iff (p : Char → Bool) (l : List Char) :
    headNot p l = true ↔ ∀ x ∈ l.head?, p x = false := by
  cases l <;> simp [headNot]

lemma lastNot_cons_of_ne_nil (p : Char → Bool) (c : Char) (l : List Char)
    (hl : l ≠ []) : lastNot p (c :: l) = lastNot p l := by
  unfold lastNot
  rw [List.reverse_cons]
  cases hrev : l.reverse with
  | nil => exact absurd (by simpa using congrArg List.reverse hrev) hl
  | cons a t => simp [headNot]

lemma lastNot_append_right (p : Char → Bool) (l t : List Char) (ht : t ≠ []) :
    lastNot p (l ++ t) = lastNot p t := by
  unfold lastNot
  rw [List.reverse_append]
  cases hrev : t.reverse with
  | nil => exact absurd (by simpa using congrArg List.reverse hrev) ht
  | cons a m => simp [headNot]

lemma headNot_append_left (p : Char → Bool) (l t : List Char) (hl : l ≠ []) :
    headNot p (l ++ t) = headNot p l := by
  cases l with
  | nil => exact absurd rfl hl
  | cons a m => rfl

lemma squashRuns2_nil (p : Char → Bool) (r : Char) : squashRuns2 p r [] = [] := rfl

lemma squashRuns2_cons (p : Char → Bool) (r c : Char) (l : List Char) :
    squashRuns2 p r (c :: l) =
      (if p c then
        match squashRuns2 p r l with
        | [] => [c]
        | d :: ds => if p d then r :: ds else c :: d :: ds
       else c :: squashRuns2 p r l) := rfl

lemma squashRuns2_cons_neg (p : Char → Bool) (r c : Char) (l : List Char)
    (hc : p c = false) : squashRuns2 p r (c :: l) = c :: squashRuns2 p r l := by
  rw [squashRuns2_cons]; simp [hc]

lemma squashRuns2_cons_pos_nil (p : Char → Bool) (r c : Char) (l : List Char)
    (hc : p c = true) (hacc : squashRuns2 p r l = []) :
    squashRuns2 p r (c :: l) = [c] := by
  rw [squashRuns2_cons]; simp [hc, hacc]

lemma squashRuns2_cons_pos_pos (p : Char → Bool) (r c : Char) (l : List Char)
    (d : Char) (ds : List Char) (hc : p c = true)
    (hacc : squashRuns2 p r l = d :: ds) (hd : p d = true) :
    squashRuns2 p r (c :: l) = r :: ds := by
  rw [squashRuns2_cons]; simp [hc, hacc, hd]

lemma squashRuns2_cons_pos_neg (p : Char → Bool) (r c : Char) (l : List Char)
    (d : Char) (ds : List Char) (hc : p c = true)
    (hacc : squashRuns2 p r l = d :: ds) (hd : p d = false) :
    squashRuns2 p r (c :: l) = c :: d :: ds := by
  rw [squashRuns2_cons]; simp [hc, hacc, hd]

lemma squashRuns2_ne_nil (p : Char → Bool) (r c : Char) (l : List Char) :
    squashRuns2 p r (c :: l) ≠ [] := by
  cases hc : p c with
  | false => rw [squashRuns2_cons_neg p r c l hc]; simp
  | true =>
    cases hacc : squashRuns2 p r l with
    | nil => rw [squashRuns2_cons_pos_nil p r c l hc hacc]; simp
    | cons d ds =>
      cases hd : p d with
      | true => rw [squashRuns2_cons_pos_pos p r c l d ds hc hacc hd]; simp
      | false => rw [squashRuns2_cons_pos_neg p r c l d ds hc hacc hd]; simp

lemma squashRuns2_head (p : Char → Bool) (r c : Char) (l : List Char) :
    ∃ t, squashRuns2 p r (c :: l) = c :: t ∨ squashRuns2 p r (c :: l) = r :: t := by
  cases hc : p c with
  | false => exact ⟨squashRuns2 p r l, Or.inl (squashRuns2_cons_neg p r c l hc)⟩
  | true =>
    cases hacc : squashRuns2 p r l with
    | nil => exact ⟨[], Or.inl (squashRuns2_cons_pos_nil p r c l hc hacc)⟩
    | cons d ds =>
      cases hd : p d with
      | true => exact ⟨ds, Or.inr (squashRuns2_cons_pos_pos p r c l d ds hc hacc hd)⟩
      | false =>
        exact ⟨d :: ds, Or.inl (squashRuns2_cons_pos_neg p r c l d ds hc hacc hd)⟩

lemma mem_squashRuns2 (p : Char → Bool) (r : Char) (l : List Char) (x : Char)
    (h : x ∈ squashRuns2 p r l) : x ∈ l ∨ x = r := by
  induction l with
  | nil => rw [squashRuns2_nil] at h; exact absurd h (by simp)
  | cons c t ih =>
    cases hc : p c with
    | false =>
      rw [squashRuns2_cons_neg p r c t hc] at h
      rcases List.mem_cons.mp h with h1 | h1
      · exact Or.inl (by simp [h1])
      · rcases ih h1 with h2 | h2
        · exact Or.inl (List.mem_cons_of_mem c h2)
        · exact Or.inr h2
    | true =>
      cases hacc : squashRuns2 p r t with
      | nil =>
        rw [squashRuns2_cons_pos_nil p r c t hc hacc] at h
        simp at h
        exact Or.inl (by simp [h])
      | cons d ds =>
        cases hd : p d with
        | true =>
          rw [squashRuns2_cons_pos_pos p r c t d ds hc hacc hd] at h
          rcases List.mem_cons.mp h with h1 | h1
          · exact Or.inr h1
          · rcases ih (by rw [hacc]; exact List.mem_cons_of_mem d h1) with h2 | h2
            · exact Or.inl (List.mem_cons_of_mem c h2)
            · exact Or.inr h2
        | false =>
          rw [squashRuns2_cons_pos_neg p r c t d ds hc hacc hd] at h
          rcases List.mem_cons.mp h with h1 | h1
          · exact Or.inl (by simp [h1])
          · rcases ih (by rw [hacc]; exact h1) with h2 | h2
            · exact Or.inl (List.mem_cons_of_mem c h2)
            · exact Or.inr h2

lemma noTwoAdj_squashRuns2_self (p : Char → Bool) (r : Char) (l : List Char)
    (hr : p r = true) : noTwoAdj p (squashRuns2 p r l) = true := by
  induction l with
  | nil => rfl
  | cons c t ih =>
    cases hc : p c with
    | false =>
      rw [squashRuns2_cons_neg p r c t hc]
      exact noTwoAdj_cons_of p c _ hc ih
    | true =>
      cases hacc : squashRuns2 p r t with
      | nil => rw [squashRuns2_cons_pos_nil p r c t hc hacc]; rfl
      | cons d ds =>
        rw [hacc] at ih
        cases hd : p d with
        | true =>
          rw [squashRuns2_cons_pos_pos p r c t d ds hc hacc hd]
          cases ds with
          | nil => rfl
          | cons e es =>
            have hpair := noTwoAdj_pair p d e es ih
            have he : p e = false := by
              cases hpe : p e
              · rfl
              · rw [hd, hpe] at hpair; simp at hpair
            show (!(p r && p e) && noTwoAdj p (e :: es)) = true
            rw [he, noTwoAdj_tail p d (e :: es) ih]
            simp
        | false =>
          rw [squashRuns2_cons_pos_neg p r c t d ds hc hacc hd]
          show (!(p c && p d) && noTwoAdj p (d :: ds)) = true
          rw [hd, ih]
          simp

lemma noTwoAdj_squashRuns2_other (p q : Char → Bool) (r : Char) (l : List Char)
    (hqr : q r = false) (h : noTwoAdj q l = true) :
    noTwoAdj q (squashRuns2 p r l) = true := by
  induction l with
  | nil => rfl
  | cons c t ih =>
    have ht : noTwoAdj q t = true := noTwoAdj_tail q c t h
    cases hc : p c with
    | true =>
      cases hacc : squashRuns2 p r t with
      | nil => rw [squashRuns2_cons_pos_nil p r c t hc hacc]; rfl
      | cons d ds =>
        have iht := ih ht
        rw [hacc] at iht
        cases hd : p d with
        | true =>
          rw [squashRuns2_cons_pos_pos p r c t d ds hc hacc hd]
          exact noTwoAdj_cons_of q r ds hqr (noTwoAdj_tail q d ds iht)
        | false =>
          rw [squashRuns2_cons_pos_neg p r c t d ds hc hacc hd]
          cases t with
          | nil => rw [squashRuns2_nil] at hacc; exact absurd hacc (by simp)
          | cons e t' =>
            obtain ⟨u, hu | hu⟩ := squashRuns2_head p r e t'
            · rw [hacc] at hu
              injection hu with h1 h2
              have hpair := noTwoAdj_pair q c e t' h
              show (!(q c && q d) && noTwoAdj q (d :: ds)) = true
              rw [h1] at iht ⊢
              rw [hpair, iht]
              simp
            · rw [hacc] at hu
              injection hu with h1 h2
              show (!(q c && q d) && noTwoAdj q (d :: ds)) = true
              rw [h1] at iht ⊢
              rw [hqr, iht]
              simp
    | false =>
      rw [squashRuns2_cons_neg p r c t hc]
      cases t with
      | nil => rfl
      | cons e t' =>
        have hih := ih ht
        obtain ⟨u, hu | hu⟩ := squashRuns2_head p r e t'
        · rw [hu] at hih ⊢
          have hpair := noTwoAdj_pair q c e t' h
          show (!(q c && q e) && noTwoAdj q (e :: u)) = true
          rw [hpair, hih]
          simp
        · rw [hu] at hih ⊢
          show (!(q c && q r) && noTwoAdj q (r :: u)) = true
          rw [hqr, hih]
          simp

lemma squashRuns2_id (p : Char → Bool) (r : Char) (l : List Char)
    (h : noTwoAdj p l = true) : squashRuns2 p r l = l := by
  induction l with
  | nil => rfl
  | cons c t ih =>
    have ht := noTwoAdj_tail p c t h
    cases hc : p c with
    | false => rw [squashRuns2_cons_neg p r c t hc, ih ht]
    | true =>
      cases t with
      | nil => rw [squashRuns2_cons_pos_nil p r c [] hc rfl]
      | cons d ds =>
        have hpair := noTwoAdj_pair p c d ds h
        have hd : p d = false := by
          cases hpd : p d
          · rfl
          · rw [hc, hpd] at hpair; simp at hpair
        rw [squashRuns2_cons_pos_neg p r c (d :: ds) d ds hc (ih ht) hd]

lemma squashRuns2_last (p : Char → Bool) (r : Char) (l : List Char) (hl : l ≠ []) :
    (squashRuns2 p r l).getLast? = l.getLast? ∨
      (squashRuns2 p r l).getLast? = some r := by
  induction l with
  | nil => exact absurd rfl hl
  | cons c t ih =>
    cases t with
    | nil =>
      left
      cases hc : p c with
      | false => rw [squashRuns2_cons_neg p r c [] hc]; rfl
      | true => rw [squashRuns2_cons_pos_nil p r c [] hc rfl]
    | cons e t' =>
      have iht := ih (by simp)
      cases hc : p c with
      | true =>
        cases hacc : squashRuns2 p r (e :: t') with
        | nil => exact absurd hacc (squashRuns2_ne_nil p r e t')
        | cons d ds =>
          rw [hacc] at iht
          cases hd : p d with
          | true =>
            rw [squashRuns2_cons_pos_pos p r c (e :: t') d ds hc hacc hd]
            cases ds with
            | nil => right; rfl
            | cons y ys =>
              rw [List.getLast?_cons_cons] at iht
              rcases iht with h1 | h1
              · left
                exact List.getLast?_cons_cons.trans
                  (h1.trans List.getLast?_cons_cons.symm)
              · right
                exact List.getLast?_cons_cons.trans h1
          | false =>
            rw [squashRuns2_cons_pos_neg p r c (e :: t') d ds hc hacc hd]
            rcases iht with h1 | h1
            · left
              exact List.getLast?_cons_cons.trans
                (h1.trans List.getLast?_cons_cons.symm)
            · right
              exact List.getLast?_cons_cons.trans h1
      | false =>
        rw [squashRuns2_cons_neg p r c (e :: t') hc]
        cases hacc : squashRuns2 p r (e :: t') with
        | nil => exact absurd hacc (squashRuns2_ne_nil p r e t')
        | cons d ds =>
          rw [hacc] at iht
          rcases iht with h1 | h1
          · left
            exact List.getLast?_cons_cons.trans
              (h1.trans List.getLast?_cons_cons.symm)
          · right
            exact List.getLast?_cons_cons.trans h1

lemma squashRuns2_lastNot (p q : Char → Bool) (r : Char) (l : List Char)
    (hqr : q r = false) (h : lastNot q l = true) :
    lastNot q (squashRuns2 p r l) = true := by
  cases l with
  | nil => rfl
  | cons c t =>
    rw [lastNot_iff] at h ⊢
    intro x hx
    rcases squashRuns2_last p r (c :: t) (by simp) with h1 | h1
    · rw [h1] at hx; exact h x hx
    · rw [h1] at hx
      simp at hx
      subst hx
      exact hqr

lemma squashRuns2_headNot (p q : Char → Bool) (r : Char) (l : List Char)
    (hqr : q r = false) (h : headNot q l = true) :
    headNot q (squashRuns2 p r l) = true := by
  cases l with
  | nil => rfl
  | cons c t =>
    obtain ⟨u, hu | hu⟩ := squashRuns2_head p r c t
    · rw [hu]
      exact h
    · rw [hu, headNot_cons, hqr]
      rfl

lemma getLast?_cons_ne (x : Char) (l : List Char) (hl : l ≠ []) :
    (x :: l).getLast? = l.getLast? := by
  cases l with
  | nil => exact absurd rfl hl
  | cons d t => exact List.getLast?_cons_cons

lemma noTwoAdj_cons_of_head (p : Char → Bool) (c : Char) (l : List Char)
    (h : ∀ h' ∈ l.head?, (p c && p h') = false) (hl : noTwoAdj p l = true) :
    noTwoAdj p (c :: l) = true := by
  cases l with
  | nil => rfl
  | cons d t =>
    show (!(p c && p d) && noTwoAdj p (d :: t)) = true
    rw [h d (by simp), hl]
    rfl

lemma replRuns1_nil (p : Char → Bool) (r : Char) : replRuns1 p r [] = [] := rfl

lemma replRuns1_one (p : Char → Bool) (r a : Char) :
    replRuns1 p r [a] = if p a then [r] else [a] := rfl

lemma replRuns1_cons2 (p : Char → Bool) (r a b : Char) (rest : List Char) :
    replRuns1 p r (a :: b :: rest) =
      (if p a && p b then replRuns1 p r (b :: rest)
       else if p a then r :: replRuns1 p r (b :: rest)
       else a :: replRuns1 p r (b :: rest)) := rfl

lemma replRuns1_ne_nil (p : Char → Bool) (r : Char) (l : List Char) (hl : l ≠ []) :
    replRuns1 p r l ≠ [] := by
  induction l with
  | nil => exact absurd rfl hl
  | cons a t ih =>
    cases t with
    | nil =>
      rw [replRuns1_one]
      by_cases ha : p a <;> simp [ha]
    | cons b rest =>
      rw [replRuns1_cons2]
      by_cases hab : (p a && p b) = true
      · rw [if_pos hab]
        exact ih (by simp)
      · rw [if_neg hab]
        by_cases ha : p a <;> simp [ha]

lemma replRuns1_head (p : Char → Bool) (r : Char) (l : List Char) :
    ∀ c, (replRuns1 p r (c :: l)).head? = some (if p c then r else c) := by
  induction l with
  | nil =>
    intro c
    rw [replRuns1_one]
    by_cases hc : p c <;> simp [hc]
  | cons b rest ih =>
    intro c
    rw [replRuns1_cons2]
    by_cases hc : p c
    · by_cases hb : p b
      · rw [if_pos (by simp [hc, hb]), ih b]
        simp [hb, hc]
      · rw [if_neg (by simp [hb]), if_pos hc]
        simp [hc]
    · rw [if_neg (by simp [hc]), if_neg hc]
      simp [hc]

lemma replRuns1_no_p (p : Char → Bool) (r : Char) (l : List Char)
    (hpr : p r = false) : ∀ x ∈ replRuns1 p r l, p x = false := by
  induction l with
  | nil => intro x hx; rw [replRuns1_nil] at hx; exact absurd hx (by simp)
  | cons a t ih =>
    cases t with
    | nil =>
      intro x hx
      rw [replRuns1_one] at hx
      by_cases ha : p a
      · rw [if_pos ha] at hx
        simp at hx
        rw [hx]
        exact hpr
      · rw [if_neg ha] at hx
        simp at hx
        rw [hx]
        simpa using ha
    | cons b rest =>
      intro x hx
      rw [replRuns1_cons2] at hx
      by_cases hab : (p a && p b) = true
      · rw [if_pos hab] at hx
        exact ih x hx
      · rw [if_neg hab] at hx
        by_cases ha : p a
        · rw [if_pos ha] at hx
          rcases List.mem_cons.mp hx with h1 | h1
          · rw [h1]; exact hpr
          · exact ih x h1
        · rw [if_neg ha] at hx
          rcases List.mem_cons.mp hx with h1 | h1
          · rw [h1]; simpa using ha
          · exact ih x h1

lemma mem_replRuns1 (p : Char → Bool) (r : Char) (l : List Char) (x : Char)
    (h : x ∈ replRuns1 p r l) : x ∈ l ∨ x = r := by
  induction l with
  | nil => rw [replRuns1_nil] at h; exact absurd h (by simp)
  | cons a t ih =>
    cases t with
    | nil =>
      rw [replRuns1_one] at h
      by_cases ha : p a
      · rw [if_pos ha] at h; simp at h; exact Or.inr h
      · rw [if_neg ha] at h; simp at h; exact Or.inl (by simp [h])
    | cons b rest =>
      rw [replRuns1_cons2] at h
      by_cases hab : (p a && p b) = true
      · rw [if_pos hab] at h
        rcases ih h with h1 | h1
        · exact Or.inl (List.mem_cons_of_mem a h1)
        · exact Or.inr h1
      · rw [if_neg hab] at h
        by_cases ha : p a
        · rw [if_pos ha] at h
          rcases List.mem_cons.mp h with h1 | h1
          · exact Or.inr h1
          · rcases ih h1 with h2 | h2
            · exact Or.inl (List.mem_cons_of_mem a h2)
            · exact Or.inr h2
        · rw [if_neg ha] at h
          rcases List.mem_cons.mp h with h1 | h1
          · exact Or.inl (by simp [h1])
          · rcases ih h1 with h2 | h2
            · exact Or.inl (List.mem_cons_of_mem a h2)
            · exact Or.inr h2

lemma noTwoAdj_replRuns1 (p q : Char → Bool) (r : Char) (l : List Char)
    (hqr : q r = false) (h : noTwoAdj q l = true) :
    noTwoAdj q (replRuns1 p r l) = true := by
  induction l with
  | nil => rfl
  | cons a t ih =>
    cases t with
    | nil =>
      rw [replRuns1_one]
      by_cases ha : p a <;> simp [ha, noTwoAdj]
    | cons b rest =>
      have ht : noTwoAdj q (b :: rest) = true := noTwoAdj_tail q a (b :: rest) h
      have iht := ih ht
      rw [replRuns1_cons2]
      by_cases hab : (p a && p b) = true
      · rw [if_pos hab]
        exact iht
      · rw [if_neg hab]
        by_cases ha : p a
        · rw [if_pos ha]
          refine noTwoAdj_cons_of_head q r _ ?_ iht
          intro h' hh'
          simp [hqr]
        · rw [if_neg ha]
          refine noTwoAdj_cons_of_head q a _ ?_ iht
          intro h' hh'
          rw [replRuns1_head p r rest b] at hh'
          simp at hh'
          by_cases hb : p b
          · rw [if_pos hb] at hh'
            rw [← hh']
            simp [hqr]
          · rw [if_neg hb] at hh'
            rw [← hh']
            exact noTwoAdj_pair q a b rest h

lemma replRuns1_id (p : Char → Bool) (r : Char) (l : List Char)
    (h : ∀ c ∈ l, p c = false) : replRuns1 p r l = l := by
  induction l with
  | nil => rfl
  | cons a t ih =>
    cases t with
    | nil =>
      rw [replRuns1_one, if_neg (by simp [h a (by simp)])]
    | cons b rest =>
      have ha := h a (by simp)
      have iht := ih (fun c hc => h c (List.mem_cons_of_mem a hc))
      rw [replRuns1_cons2, if_neg (by simp [ha]), if_neg (by simp [ha]), iht]

lemma replRuns1_last (p : Char → Bool) (r : Char) (l : List Char) (hl : l ≠ []) :
    (replRuns1 p r l).getLast? = l.getLast? ∨
      (replRuns1 p r l).getLast? = some r := by
  induction l with
  | nil => exact absurd rfl hl
  | cons a t ih =>
    cases t with
    | nil =>
      rw [replRuns1_one]
      by_cases ha : p a
      · right; simp [ha]
      · left; simp [ha]
    | cons b rest =>
      have iht := ih (by simp)
      have hne := replRuns1_ne_nil p r (b :: rest) (by simp)
      rw [replRuns1_cons2]
      by_cases hab : (p a && p b) = true
      · rw [if_pos hab]
        rcases iht with h1 | h1
        · left; exact h1.trans List.getLast?_cons_cons.symm
        · right; exact h1
      · rw [if_neg hab]
        by_cases ha : p a
        · rw [if_pos ha, getLast?_cons_ne r _ hne]
          rcases iht with h1 | h1
          · left; exact h1.trans List.getLast?_cons_cons.symm
          · right; exact h1
        · rw [if_neg ha, getLast?_cons_ne a _ hne]
          rcases iht with h1 | h1
          · left; exact h1.trans List.getLast?_cons_cons.symm
          · right; exact h1

lemma replRuns1_headNot (p q : Char → Bool) (r : Char) (l : List Char)
    (hqr : q r = false) (h : headNot q l = true) :
    headNot q (replRuns1 p r l) = true := by
  cases l with
  | nil => rfl
  | cons c t =>
    rw [headNot_iff]
    intro x hx
    rw [replRuns1_head p r t c] at hx
    simp at hx
    by_cases hc : p c
    · rw [if_pos hc] at hx
      rw [← hx]
      exact hqr
    · rw [if_neg hc] at hx
      rw [← hx]
      exact (headNot_iff q (c :: t)).mp h c (by simp)

lemma replRuns1_lastNot (p q : Char → Bool) (r : Char) (l : List Char)
    (hqr : q r = false) (h : lastNot q l = true) :
    lastNot q (replRuns1 p r l) = true := by
  cases l with
  | nil => rfl
  | cons c t =>
    rw [lastNot_iff] at h ⊢
    intro x hx
    rcases replRuns1_last p r (c :: t) (by simp) with h1 | h1
    · rw [h1] at hx
      exact h x hx
    · rw [h1] at hx
      simp at hx
      rw [← hx]
      exact hqr

lemma takeWhile_nil_headNot (p : Char → Bool) (l : List Char)
    (h : (l.takeWhile p).isEmpty = true) : headNot p l = true := by
  cases l with
  | nil => rfl
  | cons a t =>
    rw [List.takeWhile_cons] at h
    by_cases ha : p a
    · rw [if_pos ha] at h
      simp at h
    · rw [headNot_cons]
      simpa using ha

lemma headNot_takeWhile_nil (p : Char → Bool) (l : List Char)
    (h : headNot p l = true) : (l.takeWhile p).isEmpty = true := by
  cases l with
  | nil => rfl
  | cons a t =>
    rw [headNot_cons] at h
    rw [List.takeWhile_cons, if_neg (by simpa using h)]
    rfl

lemma dropWhile_rev_pre (p : Char → Bool) (m : List Char) :
    (m.reverse.dropWhile p).reverse <+: m := by
  have hsfx : m.reverse.dropWhile p <:+ m.reverse := List.dropWhile_suffix p
  have := List.reverse_prefix.mpr hsfx
  rwa [List.reverse_reverse] at this

lemma replTrailDots_ne_nil (m : List Char) (hm : m ≠ []) : replTrailDots m ≠ [] := by
  unfold replTrailDots
  by_cases h : (m.reverse.takeWhile isDot).isEmpty = true
  · rw [if_pos h]; exact hm
  · rw [if_neg h]; simp

lemma mem_replTrailDots (m : List Char) (x : Char) (h : x ∈ replTrailDots m) :
    x ∈ m ∨ x = '_' := by
  unfold replTrailDots at h
  by_cases hE : (m.reverse.takeWhile isDot).isEmpty = true
  · rw [if_pos hE] at h; exact Or.inl h
  · rw [if_neg hE] at h
    rcases List.mem_append.mp h with h1 | h1
    · left
      have hsub := (List.dropWhile_suffix (l := m.reverse) isDot).sublist.subset
      have := hsub (List.mem_reverse.mp h1)
      exact List.mem_reverse.mp (by simpa using this)
    · right
      simpa using h1

lemma lastNot_replTrailDots (m : List Char) : lastNot isDot (replTrailDots m) = true := by
  unfold replTrailDots
  by_cases hE : (m.reverse.takeWhile isDot).isEmpty = true
  · rw [if_pos hE]
    exact takeWhile_nil_headNot isDot m.reverse hE
  · rw [if_neg hE]
    rw [lastNot_append_right isDot _ ['_'] (by simp)]
    rfl

lemma headNot_replTrailDots (m : List Char) (h : headNot isDot m = true) :
    headNot isDot (replTrailDots m) = true := by
  unfold replTrailDots
  by_cases hE : (m.reverse.takeWhile isDot).isEmpty = true
  · rw [if_pos hE]; exact h
  · rw [if_neg hE]
    cases hA : (m.reverse.dropWhile isDot).reverse with
    | nil => rfl
    | cons a t =>
      obtain ⟨u, hu⟩ := dropWhile_rev_pre isDot m
      rw [hA] at hu
      rw [← hu] at h
      rw [headNot_append_left isDot _ ['_'] (by simp)]
      exact h

lemma noTwoAdj_replTrailDots (m : List Char) (h : noTwoAdj isDot m = true) :
    noTwoAdj isDot (replTrailDots m) = true := by
  unfold replTrailDots
  by_cases hE : (m.reverse.takeWhile isDot).isEmpty = true
  · rw [if_pos hE]; exact h
  · rw [if_neg hE]
    obtain ⟨u, hu⟩ := dropWhile_rev_pre isDot m
    refine noTwoAdj_append isDot _ _ ?_ (by rfl) ?_
    · exact noTwoAdj_append_left isDot _ u (by rw [hu]; exact h)
    · intro a _ b hb
      simp at hb
      rw [← hb]
      simp [isDot]

lemma replEdgeDots_nil : replEdgeDots [] = [] := rfl

lemma mem_replEdgeDots (l : List Char) (x : Char) (h : x ∈ replEdgeDots l) :
    x ∈ l ∨ x = '_' := by
  unfold replEdgeDots at h
  by_cases hL : (l.takeWhile isDot).isEmpty = true
  · rw [if_pos hL] at h
    exact mem_replTrailDots l x h
  · rw [if_neg hL] at h
    by_cases hR : (l.dropWhile isDot).isEmpty = true
    · rw [if_pos hR] at h
      right
      simpa using h
    · rw [if_neg hR] at h
      rcases List.mem_cons.mp h with h1 | h1
      · exact Or.inr h1
      · rcases mem_replTrailDots _ x h1 with h2 | h2
        · left
          exact (List.dropWhile_suffix (l := l) isDot).sublist.subset h2
        · exact Or.inr h2

lemma headNot_replEdgeDots (l : List Char) : headNot isDot (replEdgeDots l) = true := by
  unfold replEdgeDots
  by_cases hL : (l.takeWhile isDot).isEmpty = true
  · rw [if_pos hL]
    exact headNot_replTrailDots l (takeWhile_nil_headNot isDot l hL)
  · rw [if_neg hL]
    by_cases hR : (l.dropWhile isDot).isEmpty = true
    · rw [if_pos hR]; rfl
    · rw [if_neg hR]; rfl

lemma lastNot_replEdgeDots (l : List Char) : lastNot isDot (replEdgeDots l) = true := by
  unfold replEdgeDots
  by_cases hL : (l.takeWhile isDot).isEmpty = true
  · rw [if_pos hL]
    exact lastNot_replTrailDots l
  · rw [if_neg hL]
    by_cases hR : (l.dropWhile isDot).isEmpty = true
    · rw [if_pos hR]; rfl
    · rw [if_neg hR]
      have hne : l.dropWhile isDot ≠ [] := by simpa [List.isEmpty_iff] using hR
      rw [lastNot_cons_of_ne_nil isDot '_' _ (replTrailDots_ne_nil _ hne)]
      exact lastNot_replTrailDots _

lemma noTwoAdj_replEdgeDots (l : List Char) (h : noTwoAdj isDot l = true) :
    noTwoAdj isDot (replEdgeDots l) = true := by
  unfold replEdgeDots
  by_cases hL : (l.takeWhile isDot).isEmpty = true
  · rw [if_pos hL]
    exact noTwoAdj_replTrailDots l h
  · rw [if_neg hL]
    by_cases hR : (l.dropWhile isDot).isEmpty = true
    · rw [if_pos hR]; rfl
    · rw [if_neg hR]
      have hdrop : noTwoAdj isDot (l.dropWhile isDot) = true := by
        refine noTwoAdj_append_right isDot (l.takeWhile isDot) _ ?_
        rw [List.takeWhile_append_dropWhile]
        exact h
      exact noTwoAdj_cons_of isDot '_' _ (by simp [isDot]) (noTwoAdj_replTrailDots _ hdrop)

lemma replTrailDots_id (m : List Char) (h : lastNot isDot m = true) :
    replTrailDots m = m := by
  unfold replTrailDots
  rw [if_pos (headNot_takeWhile_nil isDot m.reverse h)]

lemma replEdgeDots_id (l : List Char) (hh : headNot isDot l = true)
    (hl : lastNot isDot l = true) : replEdgeDots l = l := by
  unfold replEdgeDots
  rw [if_pos (headNot_takeWhile_nil isDot l hh)]
  exact replTrailDots_id l hl

lemma digit_toNat (k : Nat) (hk : k ≤ 9) : (Char.ofNat (48 + k)).toNat = 48 + k := by
  interval_cases k <;> decide

lemma natCharsGo_ne_nil (fuel n : Nat) : natCharsGo fuel n ≠ [] := by
  cases fuel with
  | zero => simp [natCharsGo]
  | succ f =>
    unfold natCharsGo
    by_cases h : n < 10
    · rw [if_pos h]; simp
    · rw [if_neg h]; simp

lemma natCharsGo_digits (fuel n : Nat) :
    ∀ c ∈ natCharsGo fuel n, 48 ≤ c.toNat ∧ c.toNat ≤ 57 := by
  induction fuel generalizing n with
  | zero =>
    intro c hc
    simp [natCharsGo] at hc
    have h9 : n % 10 ≤ 9 := Nat.le_of_lt_succ (Nat.mod_lt _ (by norm_num))
    rw [hc, digit_toNat _ h9]
    omega
  | succ f ih =>
    intro c hc
    unfold natCharsGo at hc
    by_cases h : n < 10
    · rw [if_pos h] at hc
      simp at hc
      have h9 : n ≤ 9 := Nat.le_of_lt_succ h
      rw [hc, digit_toNat _ h9]
      omega
    · rw [if_neg h] at hc
      rcases List.mem_append.mp hc with h1 | h1
      · exact ih (n / 10) c h1
      · simp at h1
        have h9 : n % 10 ≤ 9 := Nat.le_of_lt_succ (Nat.mod_lt _ (by norm_num))
        rw [h1, digit_toNat _ h9]
        omega

lemma natChars_ne_nil (n : Nat) : natChars n ≠ [] := natCharsGo_ne_nil n n

lemma natChars_digits (n : Nat) : ∀ c ∈ natChars n, 48 ≤ c.toNat ∧ c.toNat ≤ 57 :=
  natCharsGo_digits n n

lemma digit_not_bad (c : Char) (h1 : 48 ≤ c.toNat) (h2 : c.toNat ≤ 57) :
    isBadFileChar c = false := by
  simp only [isBadFileChar]
  revert h1 h2
  generalize c.toNat = n
  intro h1 h2
  interval_cases n <;> decide

lemma digit_not_space (c : Char) (h1 : 48 ≤ c.toNat) (h2 : c.toNat ≤ 57) :
    isJsSpace c = false := by
  simp only [isJsSpace]
  revert h1 h2
  generalize c.toNat = n
  intro h1 h2
  interval_cases n <;> decide

lemma char_toNat_ne (c : Char) (k : Nat) (hk : c.toNat ≠ k) (d : Char)
    (hd : d.toNat = k) : (c == d) = false := by
  by_contra hb
  rw [Bool.not_eq_false] at hb
  have : c = d := by
    have h1 := eq_of_beq hb
    exact h1
  rw [this, hd] at hk
  exact hk rfl

lemma digit_not_dot (c : Char) (h1 : 48 ≤ c.toNat) (h2 : c.toNat ≤ 57) :
    isDot c = false := by
  unfold isDot
  exact char_toNat_ne c 46 (by omega) '.' (by decide)

lemma digit_not_und (c : Char) (h1 : 48 ≤ c.toNat) (h2 : c.toNat ≤ 57) :
    isUnd c = false := by
  unfold isUnd
  exact char_toNat_ne c 95 (by omega) '_' (by decide)

lemma takeWhile_append_all (q : Char → Bool) (l1 l2 : List Char)
    (h : ∀ x ∈ l1, q x = true) :
    (l1 ++ l2).takeWhile q = l1 ++ l2.takeWhile q := by
  induction l1 with
  | nil => rfl
  | cons a t ih =>
    rw [List.cons_append, List.takeWhile_cons, if_pos (h a (by simp)),
      ih (fun x hx => h x (List.mem_cons_of_mem a hx))]
    rfl

lemma isReservedBase_nil : isReservedBase [] = false := by decide

lemma isReservedBase_und (t : List Char) : isReservedBase ('_' :: t) = false := by
  have hU : Char.toUpper '_' = '_' := by decide
  rcases t with _ | ⟨x1, _ | ⟨x2, _ | ⟨x3, _ | ⟨x4, r⟩⟩⟩⟩ <;>
    simp [isReservedBase, hU]

lemma isReservedBase_len (b : List Char) (h : isReservedBase b = true) :
    b.length = 3 ∨ b.length = 4 := by
  rcases b with _ | ⟨y1, _ | ⟨y2, _ | ⟨y3, _ | ⟨y4, _ | ⟨y5, r⟩⟩⟩⟩⟩
  · simp [isReservedBase] at h
  · simp [isReservedBase] at h
  · simp [isReservedBase] at h
  · left; rfl
  · right; rfl
  · simp [isReservedBase] at h

lemma mem_of_head (l : List Char) (x : Char) (h : l.head? = some x) : x ∈ l := by
  cases l with
  | nil => simp at h
  | cons a t =>
    simp at h
    rw [← h]
    exact List.mem_cons_self a t

lemma mem_of_getLast (l : List Char) (x : Char) (h : l.getLast? = some x) : x ∈ l := by
  have hr : l.reverse.head? = some x := by rw [List.head?_reverse, h]
  exact List.mem_reverse.mp (mem_of_head l.reverse x hr)

lemma sanNormal_build (l : List Char)
    (hall : ∀ c ∈ l, isBadFileChar c = false ∧ isJsSpace c = false)
    (h1 : noTwoAdj isDot l = true) (h2 : noTwoAdj isUnd l = true)
    (h3 : headNot isDot l = true) (h4 : lastNot isDot l = true) :
    sanNormal l = true := by
  simp only [sanNormal, Bool.and_eq_true]
  refine ⟨⟨⟨⟨?_, h1⟩, h2⟩, h3⟩, h4⟩
  rw [List.all_eq_true]
  intro c hc
  simp [(hall c hc).1, (hall c hc).2]

lemma sanNormal_parts (l : List Char) (h : sanNormal l = true) :
    (∀ c ∈ l, isBadFileChar c = false ∧ isJsSpace c = false) ∧
    noTwoAdj isDot l = true ∧ noTwoAdj isUnd l = true ∧
    headNot isDot l = true ∧ lastNot isDot l = true := by
  simp only [sanNormal, Bool.and_eq_true] at h
  obtain ⟨⟨⟨⟨ha, h1⟩, h2⟩, h3⟩, h4⟩ := h
  refine ⟨?_, h1, h2, h3, h4⟩
  intro c hc
  have hx := (List.all_eq_true.mp ha) c hc
  simp at hx
  exact hx

lemma map_sanz_id (l : List Char) (h : ∀ c ∈ l, isBadFileChar c = false) :
    l.map (fun c => if isBadFileChar c then '_' else c) = l := by
  induction l with
  | nil => rfl
  | cons a t ih =>
    rw [List.map_cons, ih (fun c hc => h c (List.mem_cons_of_mem a hc))]
    rw [if_neg (by simp [h a (by simp)])]

lemma presan_sanNormal (l : List Char) : sanNormal (presan l) = true := by
  simp only [presan]
  set s1 := l.map (fun c => if isBadFileChar c then '_' else c)
  have g1 : ∀ c ∈ s1, isBadFileChar c = false := by
    intro c hc
    rcases List.mem_map.mp hc with ⟨a, _, rfl⟩
    by_cases hb : isBadFileChar a = true
    · rw [if_pos hb]; decide
    · rw [if_neg hb]; simpa using hb
  set s2 := squashRuns2 isDot '.' s1
  have g2 : ∀ c ∈ s2, isBadFileChar c = false := by
    intro c hc
    rcases mem_squashRuns2 isDot '.' s1 c hc with h | h
    · exact g1 c h
    · rw [h]; decide
  have a2 : noTwoAdj isDot s2 = true := noTwoAdj_squashRuns2_self isDot '.' s1 (by decide)
  set s3 := replEdgeDots s2
  have g3 : ∀ c ∈ s3, isBadFileChar c = false := by
    intro c hc
    rcases mem_replEdgeDots s2 c hc with h | h
    · exact g2 c h
    · rw [h]; decide
  have a3 : noTwoAdj isDot s3 = true := noTwoAdj_replEdgeDots s2 a2
  have h3 : headNot isDot s3 = true := headNot_replEdgeDots s2
  have l3 : lastNot isDot s3 = true := lastNot_replEdgeDots s2
  set s4 := replRuns1 isJsSpace '_' s3
  have g4 : ∀ c ∈ s4, isBadFileChar c = false := by
    intro c hc
    rcases mem_replRuns1 isJsSpace '_' s3 c hc with h | h
    · exact g3 c h
    · rw [h]; decide
  have sp4 : ∀ c ∈ s4, isJsSpace c = false := replRuns1_no_p isJsSpace '_' s3 (by decide)
  have a4 : noTwoAdj isDot s4 = true :=
    noTwoAdj_replRuns1 isJsSpace isDot '_' s3 (by decide) a3
  have h4 : headNot isDot s4 = true :=
    replRuns1_headNot isJsSpace isDot '_' s3 (by decide) h3
  have l4 : lastNot isDot s4 = true :=
    replRuns1_lastNot isJsSpace isDot '_' s3 (by decide) l3
  apply sanNormal_build
  · intro c hc
    rcases mem_squashRuns2 isUnd '_' s4 c hc with h | h
    · exact ⟨g4 c h, sp4 c h⟩
    · rw [h]; exact ⟨by decide, by decide⟩
  · exact noTwoAdj_squashRuns2_other isUnd isDot '_' s4 (by decide) a4
  · exact noTwoAdj_squashRuns2_self isUnd '_' s4 (by decide)
  · exact squashRuns2_headNot isUnd isDot '_' s4 (by decide) h4
  · exact squashRuns2_lastNot isUnd isDot '_' s4 (by decide) l4

lemma presan_id (l : List Char) (h : sanNormal l = true) : presan l = l := by
  obtain ⟨hall, hdot, hund, hhead, hlast⟩ := sanNormal_parts l h
  simp only [presan]
  rw [map_sanz_id l (fun c hc => (hall c hc).1)]
  rw [squashRuns2_id isDot '.' l hdot]
  rw [replEdgeDots_id l hhead hlast]
  rw [replRuns1_id isJsSpace '_' l (fun c hc => (hall c hc).2)]
  exact squashRuns2_id isUnd '_' l hund

lemma sanNormal_append (l1 l2 : List Char)
    (h1 : sanNormal l1 = true) (h2 : sanNormal l2 = true)
    (hn1 : l1 ≠ []) (hn2 : l2 ≠ [])
    (hjd : ∀ a ∈ l1.getLast?, ∀ b ∈ l2.head?, (isDot a && isDot b) = false)
    (hju : ∀ a ∈ l1.getLast?, ∀ b ∈ l2.head?, (isUnd a && isUnd b) = false) :
    sanNormal (l1 ++ l2) = true := by
  obtain ⟨ha1, hd1, hu1, hh1, hl1⟩ := sanNormal_parts l1 h1
  obtain ⟨ha2, hd2, hu2, hh2, hl2⟩ := sanNormal_parts l2 h2
  apply sanNormal_build
  · intro c hc
    rcases List.mem_append.mp hc with h | h
    · exact ha1 c h
    · exact ha2 c h
  · exact noTwoAdj_append isDot l1 l2 hd1 hd2 hjd
  · exact noTwoAdj_append isUnd l1 l2 hu1 hu2 hju
  · rw [headNot_append_left isDot l1 l2 hn1]; exact hh1
  · rw [lastNot_append_right isDot l1 l2 hn2]; exact hl2

lemma sanNormal_digits (n : Nat) : sanNormal (natChars n) = true := by
  apply sanNormal_build
  · intro c hc
    obtain ⟨hl, hr⟩ := natChars_digits n c hc
    exact ⟨digit_not_bad c hl hr, digit_not_space c hl hr⟩
  · refine noTwoAdj_of_none isDot _ ?_
    intro c hc
    obtain ⟨hl, hr⟩ := natChars_digits n c hc
    exact digit_not_dot c hl hr
  · refine noTwoAdj_of_none isUnd _ ?_
    intro c hc
    obtain ⟨hl, hr⟩ := natChars_digits n c hc
    exact digit_not_und c hl hr
  · rw [headNot_iff]
    intro x hx
    have hm : x ∈ natChars n := mem_of_head _ x (Option.mem_def.mp hx)
    obtain ⟨hl, hr⟩ := natChars_digits n x hm
    exact digit_not_dot x hl hr
  · rw [lastNot_iff]
    intro x hx
    have hm : x ∈ natChars n := mem_of_getLast _ x (Option.mem_def.mp hx)
    obtain ⟨hl, hr⟩ := natChars_digits n x hm
    exact digit_not_dot x hl hr

lemma sanNormal_pre_digits (pre : List Char) (n : Nat)
    (h1 : sanNormal pre = true) (hne : pre ≠ []) :
    sanNormal (pre ++ natChars n) = true := by
  refine sanNormal_append pre (natChars n) h1 (sanNormal_digits n) hne
    (natChars_ne_nil n) ?_ ?_
  · intro a _ b hb
    have hm : b ∈ natChars n := mem_of_head _ b (Option.mem_def.mp hb)
    obtain ⟨hl, hr⟩ := natChars_digits n b hm
    rw [digit_not_dot b hl hr]
    simp
  · intro a _ b hb
    have hm : b ∈ natChars n := mem_of_head _ b (Option.mem_def.mp hb)
    obtain ⟨hl, hr⟩ := natChars_digits n b hm
    rw [digit_not_und b hl hr]
    simp

lemma sanNormal_cons_und (l : List Char) (c : Char) (hl : sanNormal l = true)
    (hhead : l.head? = some c) (hcu : isUnd c = false) (hcd : isDot c = false) :
    sanNormal ('_' :: l) = true := by
  obtain ⟨hall, hdot, hund, hh, hlast⟩ := sanNormal_parts l hl
  have hne : l ≠ [] := by
    intro h0
    rw [h0] at hhead
    simp at hhead
  apply sanNormal_build
  · intro d hd
    rcases List.mem_cons.mp hd with h | h
    · rw [h]; exact ⟨by decide, by decide⟩
    · exact hall d h
  · exact noTwoAdj_cons_of isDot '_' l (by decide) hdot
  · refine noTwoAdj_cons_of_head isUnd '_' l ?_ hund
    intro h' hh'
    have hhc : h' = c := by
      rw [Option.mem_def, hhead] at hh'
      injection hh' with h2
      exact h2.symm
    rw [hhc, hcu]
    simp
  · rfl
  · rw [lastNot_cons_of_ne_nil isDot '_' l hne]
    exact hlast

lemma baseOf_head (l : List Char) (c : Char) (t : List Char)
    (h : baseOf l = c :: t) : l.head? = some c ∧ isDot c = false := by
  cases l with
  | nil => simp [baseOf] at h
  | cons a u =>
    rw [baseOf, List.takeWhile_cons] at h
    by_cases hda : isDot a = true
    · rw [if_neg (by simp [hda])] at h
      exact absurd h (by simp)
    · rw [if_pos (by simp [hda])] at h
      injection h with h1 h2
      constructor
      · simp [h1]
      · rw [← h1]
        simpa using hda

lemma baseOf_cons_und (l : List Char) : baseOf ('_' :: l) = '_' :: baseOf l := by
  rw [baseOf, List.takeWhile_cons, if_pos (by decide)]
  rfl

lemma reserved_head (s : List Char) (h : isReservedBase (baseOf s) = true) :
    ∃ c, s.head? = some c ∧ isDot c = false ∧ isUnd c = false := by
  cases hb : baseOf s with
  | nil =>
    rw [hb, isReservedBase_nil] at h
    exact absurd h (by simp)
  | cons c t =>
    obtain ⟨hh, hd⟩ := baseOf_head s c t hb
    refine ⟨c, hh, hd, ?_⟩
    cases hcu : isUnd c with
    | false => rfl
    | true =>
      unfold isUnd at hcu
      have hc : c = '_' := eq_of_beq hcu
      rw [hc] at hb
      rw [hb, isReservedBase_und] at h
      exact absurd h (by simp)

lemma truncate180_id (l : List Char) (h : l.length ≤ 180) : truncate180 l = l := by
  unfold truncate180
  rw [if_pos h]

lemma sanitize_fixed (y : String) (n2 : Nat) (hy : sanNormal y.data = true)
    (hne : y.data ≠ []) (hlen : y.data.length ≤ 180)
    (hres : isReservedBase (baseOf y.data) = false) :
    sanitizeFilename y n2 = y := by
  have hp : presan y.data = y.data := presan_id y.data hy
  have ht : truncate180 (presan y.data) = y.data := by
    rw [hp]
    exact truncate180_id y.data hlen
  have hfall : ¬ (truncate180 (presan y.data) = [] ∨
      truncate180 (presan y.data) = ['.'] ∨
      truncate180 (presan y.data) = ['.', '.']) := by
    rw [ht]
    rintro (h0 | h0 | h0)
    · exact hne h0
    · rw [h0] at hy
      revert hy
      decide
    · rw [h0] at hy
      revert hy
      decide
  have hy0 : ¬ y = "" := fun heq => hne (by rw [heq])
  simp only [sanitizeFilename]
  rw [if_neg hy0, if_neg hfall, ht]
  unfold reservedFix
  rw [if_neg (by simp [hres])]

lemma fallback_not_reserved (pre : List Char) (n : Nat)
    (hnotdot : ∀ x ∈ pre, (!isDot x) = true) (hlen : 5 ≤ pre.length) :
    isReservedBase (baseOf (pre ++ natChars n)) = false := by
  cases hres : isReservedBase (baseOf (pre ++ natChars n)) with
  | false => rfl
  | true =>
    exfalso
    have hlen34 := isReservedBase_len _ hres
    have heq : baseOf (pre ++ natChars n) =
        pre ++ (natChars n).takeWhile (fun c => !isDot c) := by
      unfold baseOf
      exact takeWhile_append_all _ _ _ hnotdot
    rw [heq, List.length_append] at hlen34
    rcases hlen34 with h | h <;> omega

/-- C7 amended: `sanitizeFilename` is idempotent on every input whose
sanitization does not trigger the 180-character truncation — neither in the
normalization pipeline (`presan` stays within the cap) nor through the
reserved-name underscore (the emitted name stays within the cap).  As
`c7_counterexample` shows, the claim fails without this proviso. -/
theorem c7_amended (x : String) (n1 n2 : Nat)
    (h1 : (presan x.data).length ≤ 180)
    (h2 : (sanitizeFilename x n1).length ≤ 180) :
    sanitizeFilename (sanitizeFilename x n1) n2 = sanitizeFilename x n1 := by
  by_cases hx : x = ""
  · have hy0 : sanitizeFilename x n1 = ⟨"default_filename_".data ++ natChars n1⟩ := by
      rw [hx]
      unfold sanitizeFilename
      rw [if_pos rfl]
    rw [hy0] at h2 ⊢
    apply sanitize_fixed
    · exact sanNormal_pre_digits "default_filename_".data n1 (by decide) (by decide)
    · show "default_filename_".data ++ natChars n1 ≠ []
      intro hc
      exact natChars_ne_nil n1 (List.append_eq_nil.mp hc).2
    · exact h2
    · exact fallback_not_reserved "default_filename_".data n1 (by decide) (by decide)
  · have htr : truncate180 (presan x.data) = presan x.data := truncate180_id _ h1
    by_cases hfall : presan x.data = [] ∨ presan x.data = ['.'] ∨
        presan x.data = ['.', '.']
    · have hy0 : sanitizeFilename x n1 = ⟨"downloaded_file_".data ++ natChars n1⟩ := by
        simp only [sanitizeFilename]
        rw [if_neg hx, htr, if_pos hfall]
      rw [hy0] at h2 ⊢
      apply sanitize_fixed
      · exact sanNormal_pre_digits "downloaded_file_".data n1 (by decide) (by decide)
      · show "downloaded_file_".data ++ natChars n1 ≠ []
        intro hc
        exact natChars_ne_nil n1 (List.append_eq_nil.mp hc).2
      · exact h2
      · exact fallback_not_reserved "downloaded_file_".data n1 (by decide) (by decide)
    · have hy0 : sanitizeFilename x n1 = ⟨reservedFix (presan x.data)⟩ := by
        simp only [sanitizeFilename]
        rw [if_neg hx, htr, if_neg hfall]
      have hsn := presan_sanNormal x.data
      have hne : presan x.data ≠ [] := fun hc => hfall (Or.inl hc)
      rw [hy0] at h2 ⊢
      cases hres : isReservedBase (baseOf (presan x.data)) with
      | false =>
        have hrf : reservedFix (presan x.data) = presan x.data := by
          unfold reservedFix
          rw [if_neg (by simp [hres])]
        rw [hrf] at h2 ⊢
        exact sanitize_fixed ⟨presan x.data⟩ n2 hsn hne h2 hres
      | true =>
        have hrf : reservedFix (presan x.data) = '_' :: presan x.data := by
          unfold reservedFix
          rw [if_pos hres]
        rw [hrf] at h2 ⊢
        obtain ⟨c, hh, hd, hu⟩ := reserved_head (presan x.data) hres
        apply sanitize_fixed
        · exact sanNormal_cons_und (presan x.data) c hsn hh hu hd
        · show ('_' :: presan x.data) ≠ []
          simp
        · exact h2
        · show isReservedBase (baseOf ('_' :: presan x.data)) = false
          rw [baseOf_cons_und]
          exact isReservedBase_und _

theorem c7_amended_witness :
    (presan "My Trip!".data).length ≤ 180 ∧
    (sanitizeFilename "My Trip!" 3).length ≤ 180 ∧
    sanitizeFilename (sanitizeFilename "My Trip!" 3) 9 = sanitizeFilename "My Trip!" 3 :=
  ⟨by decide, by decide, c7_amended "My Trip!" 3 9 (by decide) (by decide)⟩

/-! ## Toolkit for the template renderer -/

lemma replaceAllGo_id (pat repl : List Char) (fuel : Nat) (l : List Char)
    (h : ¬ pat <:+: l) : replaceAllGo pat repl fuel l = l := by
  induction fuel generalizing l with
  | zero => cases l <;> rfl
  | succ f ih =>
    cases l with
    | nil => rfl
    | cons c rest =>
      have hcond : ¬ (pat ≠ [] ∧ pat.isPrefixOf (c :: rest) = true) := by
        rintro ⟨hne, hp⟩
        obtain ⟨t2, ht2⟩ := ( List.isPrefixOf_iff_prefix).mp hp
        exact h ⟨[], t2, by simpa using ht2⟩
      have hrest : ¬ pat <:+: rest := by
        rintro ⟨s, t, heq⟩
        exact h ⟨c :: s, t, by rw [← heq]; rfl⟩
      simp only [replaceAllGo]
      rw [if_neg hcond, ih rest hrest]

lemma replaceAll_id (pat repl l : List Char) (h : ¬ pat <:+: l) :
    replaceAll pat repl l = l :=
  replaceAllGo_id pat repl l.length l h

lemma foldl_replace_id (data : List (String × String)) (l : List Char)
    (h : ∀ kv ∈ data, ¬ ((Char.ofNat 123 :: kv.1.data ++ [Char.ofNat 125]) <:+: l)) :
    data.foldl
      (fun result kv =>
        replaceAll (Char.ofNat 123 :: kv.1.data ++ [Char.ofNat 125])
          (basicTokenSan kv.2.data) result) l = l := by
  induction data with
  | nil => rfl
  | cons kv rest ih =>
    rw [List.foldl_cons, replaceAll_id _ _ _ (h kv (by simp))]
    exact ih (fun kv2 hk => h kv2 (List.mem_cons_of_mem kv hk))

lemma sep_ne_brace (a : Char) (ha : isSep a = true) :
    (a == Char.ofNat 123) = false := by
  simp only [isSep, Bool.or_eq_true, beq_iff_eq] at ha
  rcases ha with h | h <;> rw [h] <;> decide

lemma removeTokensGo_sep (fuel : Nat) (l : List Char)
    (h : isSepTokGo fuel l = true) :
    ∀ c ∈ removeTokensGo fuel l, isSep c = true := by
  induction fuel generalizing l with
  | zero =>
    cases l with
    | nil => intro c hc; simp [removeTokensGo] at hc
    | cons a t =>
      have hz : isSepTokGo 0 (a :: t) = false := rfl
      rw [hz] at h
      exact absurd h (by simp)
  | succ f ih =>
    cases l with
    | nil => intro c hc; simp [removeTokensGo] at hc
    | cons a t =>
      simp only [isSepTokGo] at h
      by_cases ha : isSep a = true
      · rw [if_pos ha] at h
        have hbr := sep_ne_brace a ha
        have hguard : ¬ ((a == Char.ofNat 123) = true ∧
            ¬ (t.takeWhile (fun x => x ≠ Char.ofNat 125)).isEmpty = true ∧
            (t.takeWhile (fun x => x ≠ Char.ofNat 125)).length < t.length) := by
          rintro ⟨h1, _⟩
          rw [hbr] at h1
          exact absurd h1 (by simp)
        intro c hc
        simp only [removeTokensGo] at hc
        rw [if_neg hguard] at hc
        rcases List.mem_cons.mp hc with h1 | h1
        · rw [h1]; exact ha
        · exact ih t h c h1
      · rw [if_neg ha] at h
        by_cases hbr : (a == Char.ofNat 123) = true
        · rw [if_pos hbr] at h
          rw [Bool.and_eq_true, Bool.and_eq_true] at h
          obtain ⟨⟨hne, hlt⟩, hrec⟩ := h
          have hguard : (a == Char.ofNat 123) = true ∧
              ¬ (t.takeWhile (fun x => x ≠ Char.ofNat 125)).isEmpty = true ∧
              (t.takeWhile (fun x => x ≠ Char.ofNat 125)).length < t.length := by
            refine ⟨hbr, ?_, ?_⟩
            · simpa using hne
            · exact of_decide_eq_true hlt
          intro c hc
          simp only [removeTokensGo] at hc
          rw [if_pos hguard] at hc
          exact ih _ hrec c hc
        · rw [if_neg hbr] at h
          exact absurd h (by simp)

lemma removeTokens_sep (l : List Char) (h : isSepTok l = true) :
    ∀ c ∈ removeTokens l, isSep c = true :=
  removeTokensGo_sep l.length l h

lemma mem_trimJs (l : List Char) (x : Char) (h : x ∈ trimJs l) : x ∈ l := by
  unfold trimJs at h
  have h1 := List.mem_reverse.mp h
  have h2 := (List.dropWhile_suffix isJsSpace).sublist.subset h1
  have h3 := List.mem_reverse.mp h2
  exact (List.dropWhile_suffix isJsSpace).sublist.subset h3

lemma trimSeps_all_sep (l : List Char) (h : ∀ c ∈ l, isSep c = true) :
    trimSeps l = [] := by
  unfold trimSeps
  have h1 : l.dropWhile isSep = [] := by
    rw [List.dropWhile_eq_nil_iff]
    intro x hx
    exact h x hx
  rw [h1]
  rfl

lemma dropWhile_head_false (p : Char → Bool) (l : List Char) (a : Char)
    (t : List Char) (h : l.dropWhile p = a :: t) : p a = false := by
  induction l with
  | nil => simp at h
  | cons c u ih =>
    rw [List.dropWhile_cons] at h
    by_cases hc : p c = true
    · rw [if_pos hc] at h
      exact ih h
    · rw [if_neg hc] at h
      injection h with h1 h2
      rw [← h1]
      simpa using hc

lemma head?_append_ne (s B : List Char) (hs : s ≠ []) :
    (s ++ B).head? = s.head? := by
  cases s with
  | nil => exact absurd rfl hs
  | cons a t => rfl

lemma getLast?_append_ne (s B : List Char) (hB : B ≠ []) :
    (s ++ B).getLast? = B.getLast? := by
  rw [← List.head?_reverse, List.reverse_append,
    head?_append_ne B.reverse s.reverse (by simpa using hB), List.head?_reverse]

lemma trimSeps_has_nonsep (l : List Char) (c : Char) (t : List Char)
    (h : trimSeps l = c :: t) : ∃ x ∈ c :: t, isSep x = false := by
  cases hA : l.dropWhile isSep with
  | nil =>
    exfalso
    unfold trimSeps at h
    rw [hA] at h
    simp at h
  | cons a A' =>
    have hna : isSep a = false := dropWhile_head_false isSep l a A' hA
    cases hB : (a :: A').reverse.dropWhile isSep with
    | nil =>
      exfalso
      unfold trimSeps at h
      rw [hA, hB] at h
      simp at h
    | cons b B' =>
      obtain ⟨s, hs⟩ := List.dropWhile_suffix (l := (a :: A').reverse) isSep
      rw [hB] at hs
      have hlast : ((a :: A').reverse).getLast? = some a := by
        rw [← List.head?_reverse, List.reverse_reverse]
        rfl
      rw [← hs, getLast?_append_ne s (b :: B') (by simp)] at hlast
      have hmem : a ∈ b :: B' := mem_of_getLast (b :: B') a hlast
      refine ⟨a, ?_, hna⟩
      have : trimSeps l = (b :: B').reverse := by
        unfold trimSeps
        rw [hA, hB]
      rw [this] at h
      rw [← h]
      exact List.mem_reverse.mpr hmem

/-- C9 amended: for a folder/file template consisting only of separator
characters and complete nonempty placeholders, none of which matches a key of
the token mapping, `applyTokenToFilename` returns the `default_name_` +
`Date.now()` fallback; and for every template and mapping whatsoever the
result is never the empty string and never consists solely of separator
characters.  As `c9_counterexample` shows, the stronger spec claim (fallback
whenever no key matches) is false: literal residue outside placeholders
survives. -/
theorem c9_amended (rule : String) (data : List (String × String)) (now : Nat) :
    ((isSepTok rule.data = true ∧
        ∀ kv ∈ data,
          ¬ ((Char.ofNat 123 :: kv.1.data ++ [Char.ofNat 125]) <:+: rule.data)) →
      applyTokenToFilename rule data now = ⟨"default_name_".data ++ natChars now⟩) ∧
    applyTokenToFilename rule data now ≠ "" ∧
    ((applyTokenToFilename rule data now).data.all isSep) = false := by
  refine ⟨?_, ?_⟩
  · rintro ⟨hsep, hnem⟩
    simp only [applyTokenToFilename]
    rw [foldl_replace_id data rule.data hnem]
    have hall4 : ∀ c ∈ squashRuns2 isSep '_'
        (squashRuns2 isDash '-' (squashRuns2 isUnd '_'
          (trimJs (removeTokens rule.data)))), isSep c = true := by
      intro c hc
      rcases mem_squashRuns2 isSep '_' _ c hc with h | h
      · rcases mem_squashRuns2 isDash '-' _ c h with h2 | h2
        · rcases mem_squashRuns2 isUnd '_' _ c h2 with h3 | h3
          · exact removeTokens_sep rule.data hsep c (mem_trimJs _ c h3)
          · rw [h3]; decide
        · rw [h2]; decide
      · rw [h]; decide
    rw [trimSeps_all_sep _ hall4]
    rw [if_pos rfl]
  · constructor
    · simp only [applyTokenToFilename]
      cases hr5 : trimSeps (squashRuns2 isSep '_'
          (squashRuns2 isDash '-' (squashRuns2 isUnd '_'
            (trimJs (removeTokens (data.foldl
              (fun result kv =>
                replaceAll (Char.ofNat 123 :: kv.1.data ++ [Char.ofNat 125])
                  (basicTokenSan kv.2.data) result) rule.data)))))) with
      | nil =>
        rw [if_pos rfl]
        intro hc
        have := congrArg String.data hc
        simp at this
      | cons c t =>
        rw [if_neg (by simp)]
        intro hc
        have := congrArg String.data hc
        simp at this
    · simp only [applyTokenToFilename]
      cases hr5 : trimSeps (squashRuns2 isSep '_'
          (squashRuns2 isDash '-' (squashRuns2 isUnd '_'
            (trimJs (removeTokens (data.foldl
              (fun result kv =>
                replaceAll (Char.ofNat 123 :: kv.1.data ++ [Char.ofNat 125])
                  (basicTokenSan kv.2.data) result) rule.data)))))) with
      | nil =>
        rw [if_pos rfl]
        show (("default_name_".data ++ natChars now).all isSep) = false
        rw [List.all_append]
        have h1 : ("default_name_".data.all isSep) = false := by decide
        rw [h1]
        rfl
      | cons c t =>
        rw [if_neg (by simp)]
        show ((c :: t).all isSep) = false
        obtain ⟨x, hx, hxf⟩ := trimSeps_has_nonsep _ c t hr5
        cases hall : (c :: t).all isSep with
        | false => rfl
        | true =>
          have := List.all_eq_true.mp hall x hx
          rw [hxf] at this
          exact absurd this (by simp)

theorem c9_amended_witness :
    applyTokenToFilename "\x7ba\x7d_\x7bb\x7d" [] 7 =
      ⟨"default_name_".data ++ natChars 7⟩ ∧
    applyTokenToFilename "abc\x7bfoo\x7d" [] 3 ≠ "" :=
  ⟨(c9_amended "\x7ba\x7d_\x7bb\x7d" [] 7).1 ⟨by decide, by simp⟩,
   (c9_amended "abc\x7bfoo\x7d" [] 3).2.1⟩

/-- C10: rendering the folder template `"{album_name}"` with the token
`album_name = "My Trip!"` and sanitizing the result yields exactly the
folder name `"My_Trip_"` (for any clock values: no fallback branch is
taken). -/
theorem c10_folder_scenario (n m : Nat) :
    sanitizeFilename
      (applyTokenToFilename "\x7balbum_name\x7d" [("album_name", "My Trip!")] n) m
      = "My_Trip_" := rfl

/-- C9 fails as stated: in the template `"abc{foo}"` no placeholder matches
a key of the (empty) mapping, yet the renderer returns the literal residue
`"abc"`, not the timestamp-based fallback name. -/
theorem c9_counterexample :
    applyTokenToFilename "abc\x7bfoo\x7d" [] 7 = "abc" ∧
    applyTokenToFilename "abc\x7bfoo\x7d" [] 7 ≠ ⟨"default_name_".data ++ natChars 7⟩ := by
  exact ⟨rfl, by decide⟩

/-- C8 fails as stated: `sanitizeFilename` reads the clock in its fallback
branches, so the empty input yields different names at different times. -/
theorem c8_counterexample : sanitizeFilename "" 0 ≠ sanitizeFilename "" 1 := by
  decide

/-- C8 amended: on every input that does not hit a timestamp fallback —
a nonempty name whose sanitized core is not empty, `"."` or `".."` — the
sanitizer is a pure deterministic function of the name: the clock value is
irrelevant. -/
theorem c8_amended (s : String) (n1 n2 : Nat) (hne : s ≠ "")
    (hfb : ¬ (truncate180 (presan s.data) = [] ∨ truncate180 (presan s.data) = ['.'] ∨
              truncate180 (presan s.data) = ['.', '.'])) :
    sanitizeFilename s n1 = sanitizeFilename s n2 := by
  unfold sanitizeFilename
  rw [if_neg hne, if_neg hne, if_neg hfb, if_neg hfb]

theorem c8_amended_witness :
    sanitizeFilename "photo.jpg" 0 = sanitizeFilename "photo.jpg" 99 :=
  c8_amended "photo.jpg" 0 99 (by decide) (by decide)

/-- C7 fails as stated: the 181-character name `"a." ++ 179 × 'b'` is
truncated to its bare extension `"." ++ 179 × 'b'`, whose leading dot a
second sanitization pass replaces, so `sanitize` is not idempotent. -/
theorem c7_counterexample :
    sanitizeFilename (sanitizeFilename c7Input 0) 0 ≠ sanitizeFilename c7Input 0 := by
  decide


end FbDl
